import Mathlib

/-!
Verification development for the folder-to-repo uploader
(`src/uploader.py`).  The transfer engine, file-set collector,
retry/backoff state machine, cancellation handling, configuration
persistence and completion classification are embedded shallowly as
executable Lean definitions, and the behavioural claims about them are
settled as theorems below.

Modelling conventions:
- machine floats used for delays/backoff are modelled as rationals;
- every consultation of the environment (a remote call, a read of the
  cancellation latch, a disposal attempt) consumes one tick of a global
  counter, so an environment is a family of tick-indexed responses;
- the cancellation flag is a one-shot latch, as in the program (it is
  cleared before the worker starts and only ever set afterwards), so it
  is modelled by the tick at which it becomes set, if ever;
- the pause busy-wait loops only burn time, so they are modelled by an
  environment-chosen number of ticks, which over-approximates the real
  exit conditions;
- a `raised` call result models a transport exception thrown by the
  underlying HTTP library at that call site.
-/

namespace Uploader

/-- Prefix test over char lists, helper for the substring test. -/
def listPre : List Char → List Char → Bool
  | [], _ => true
  | _ :: _, [] => false
  | a :: as, b :: bs => a == b && listPre as bs

/-- Substring search over char lists, helper for `pyIn`. -/
def listInfix (n : List Char) : List Char → Bool
  | [] => n.isEmpty
  | c :: hs => listPre n (c :: hs) || listInfix n hs

/-- Python `needle in hay` substring containment on strings; the worker
uses it to classify the error text of a failed write
(`"422" in err`, `"500" in err`, ... in `worker_per_file`). -/
def pyIn (needle hay : String) : Bool := listInfix needle.data hay.data

/-- Boolean lexicographic order on char lists; stands in for the
deterministic path ordering used by `sorted` in `collect_files`. -/
def charListLe : List Char → List Char → Bool
  | [], _ => true
  | _ :: _, [] => false
  | a :: as, b :: bs => if a = b then charListLe as bs else decide (a < b)

/-- Boolean lexicographic order on strings (path order). -/
def strLe (a b : String) : Bool := charListLe a.data b.data

/-!
FileSetCollector: `_skip` and `collect_files` (src/uploader.py lines
356-364), with the fixed artifact-name and noise-extension sets from
lines 69-70.  A regular file discovered by the recursive walk is
modelled by a `FileEntry` carrying the data the collector inspects:
the bare name `p.name`, the full walked path `str(p)` (the root-joined
path handed back by `root.rglob`), the root-relative path, and the
lowercased suffix `p.suffix.lower()`.  The glob matcher `fnmatch.fnmatch`
is a library function, abstracted as a boolean matcher parameter `m`;
`globMatch` below is one concrete executable matcher used for witnesses.
-/

/-- Fixed set of OS artifact names that are always skipped
(`SKIP_NAMES`, line 69). -/
def SKIP_NAMES : List String := [".DS_Store", "Thumbs.db", "desktop.ini", ".gitkeep"]

/-- Fixed set of noise extensions that are always skipped
(`SKIP_EXTENSIONS`, line 70). -/
def SKIP_EXTENSIONS : List String := [".pyc", ".pyo", ".swp", ".swo", ".tmp"]

/-- One regular file produced by the recursive directory walk. -/
structure FileEntry where
  /-- Bare file name, `p.name`. -/
  name : String
  /-- Full path of the file as walked, `str(p)` for `p` in
  `root.rglob("*")`: the root-joined path, not the root-relative one. -/
  fullPath : String
  /-- Path relative to the walk root, `p.relative_to(root)`. -/
  relPath : String
  /-- Lowercased suffix, `p.suffix.lower()`. -/
  suffixLower : String
deriving DecidableEq, Repr

/-- Exclusion test `_skip(p, patterns)` (lines 356-361): skip when the
bare name is an artifact name, the lowered suffix is a noise extension,
or some pattern matches the bare name or the full walked path `str(p)`. -/
def _skip (m : String → String → Bool) (p : FileEntry) (patterns : List String) : Bool :=
  SKIP_NAMES.contains p.name || SKIP_EXTENSIONS.contains p.suffixLower ||
    patterns.any (fun pat => m p.name pat || m p.fullPath pat)

/-- Collector `collect_files(root, patterns)` (lines 363-364): the
walked regular files that survive `_skip`, sorted by path.  The walk
result is the input list `tree`; sorting by the full path models the
deterministic `sorted(...)` on `Path` objects. -/
def collect_files (m : String → String → Bool) (tree : List FileEntry)
    (patterns : List String) : List FileEntry :=
  (tree.filter (fun p => !_skip m p patterns)).mergeSort
    (fun a b => strLe a.fullPath b.fullPath)

/-- Exclusion test following the specification wording instead of the
source: patterns are matched against the bare name and the ROOT-RELATIVE
path.  Used to compare the spec text with `_skip`, which matches the
full walked path. -/
def skipSpec (m : String → String → Bool) (p : FileEntry) (patterns : List String) : Bool :=
  SKIP_NAMES.contains p.name || SKIP_EXTENSIONS.contains p.suffixLower ||
    patterns.any (fun pat => m p.name pat || m p.relPath pat)

/-- Concrete glob matcher over char lists supporting `*` and `?`,
a faithful executable fragment of `fnmatch.fnmatch` used to build
concrete witnesses and counterexamples. -/
def globChars : Nat → List Char → List Char → Bool
  | 0, _, _ => false
  | fuel + 1, s, pat =>
    match s, pat with
    | s, '*' :: ps =>
      globChars fuel s ps ||
        (match s with
         | [] => false
         | _ :: s₁ => globChars fuel s₁ ('*' :: ps))
    | [], [] => true
    | [], _ :: _ => false
    | _ :: _, [] => false
    | c :: s, p :: ps => (p == '?' || p == c) && globChars fuel s ps

/-- Concrete glob matcher on strings (name or path against pattern);
every recursive step of `globChars` shortens the combined input, so
this fuel always suffices. -/
def fnmatch (s pat : String) : Bool :=
  globChars (s.data.length + pat.data.length + 1) s.data pat.data

/-!
Configuration persistence: `save_config` (lines 103-108) strips the
`token` key and writes the remaining mapping as JSON.  A configuration
dictionary is modelled as an ordered association list (Python dicts are
ordered with unique keys); the persisted artifact is modelled by the
stripped association list, of which the JSON text is a deterministic
rendering.  `dictSet` is Python dict assignment `cfg[k] = v`.
-/

/-- Persisted configuration, `save_config` lines 103-108: every entry
whose key is `token` is dropped, the rest is written out unchanged. -/
def save_config {α : Type} (cfg : List (String × α)) : List (String × α) :=
  cfg.filter (fun kv => kv.fst != "token")

/-- Python dict assignment `cfg[k] = v`: replaces the value at an
existing key, else appends the binding at the end. -/
def dictSet {α : Type} (cfg : List (String × α)) (k : String) (v : α) :
    List (String × α) :=
  if cfg.any (fun kv => kv.fst == k) then
    cfg.map (fun kv => if kv.fst == k then (k, v) else kv)
  else
    cfg ++ [(k, v)]

/-!
Remote hash lookup: `_get_file_sha` (lines 264-269) issues a GET for the
path on the branch and returns the `sha` field when and only when the
response status is 200; every other status yields `None`.  The remote
repository state is a partial map from path to current content hash, and
`RespConsistent` says that a response is one the data API can actually
return for that state: a 200 carries exactly the current hash of an
existing path, and a 404 is only given for a missing path.  Statuses
such as 403, 429 or 500 can occur for any path.
-/

/-- Simplified HTTP response to the contents GET: status code plus the
`sha` field of the JSON body, if any. -/
structure HttpResp where
  status : Nat
  shaField : Option String
deriving DecidableEq, Repr

/-- Hash lookup `_get_file_sha` (lines 264-269): the `sha` field on
status 200, `None` on every other status. -/
def _get_file_sha (r : HttpResp) : Option String :=
  if r.status == 200 then r.shaField else none

/-- Consistency of a response with the remote state at a path: a 200
response carries the current hash of an existing path, and a 404 is
returned only when the path is absent. -/
def RespConsistent (remote : String → Option String) (path : String)
    (r : HttpResp) : Prop :=
  (r.status = 200 → r.shaField = remote path ∧ remote path ≠ none) ∧
    (r.status = 404 → remote path = none)

/-!
Completion classification (`_done`, lines 811-816, and the colour logic
of `_discord_notify`, lines 157-161).
-/

/-- Success classification in `_done` (line 812):
`failed == 0 and done > 0`. -/
def is_success (done failed : Nat) : Bool := failed == 0 && 0 < done

/-- Failure classification in `_done` (line 813):
`failed > 0 or (done == 0 and not dry)`. -/
def is_failure (done failed : Nat) (dry : Bool) : Bool :=
  0 < failed || (done == 0 && !dry)

/-- Success flag computed again inside `_discord_notify` (line 159). -/
def discord_success (done failed : Nat) : Bool := failed == 0 && 0 < done

/-- Partial flag computed inside `_discord_notify` (line 160):
`failed > 0 and done > 0`. -/
def discord_partial (done failed : Nat) : Bool := 0 < failed && 0 < done

/-!
Backoff arithmetic of the per-item retry loop in `worker_per_file`
(lines 538-594).  On a network error of either call or a 5xx-classified
write the loop sleeps the stored backoff and then doubles it with a
ceiling of 120; on a rate-limit classification it sleeps twice the
stored backoff and stores `min(wait*2, 300)`.  `serverSleeps b0 n` is
the sleep performed by the n-th consecutive server-error retry when the
stored backoff starts at `b0` (the configured per-call delay).
-/

/-- Backoff update after a server-error or network-error retry:
`backoff = min(backoff*2, 120)` (lines 548, 556, 585). -/
def serverErrorBackoff (b : ℚ) : ℚ := min (b * 2) 120

/-- Backoff update after a rate-limit retry: `wait = backoff*2` is slept
and `backoff = min(wait*2, 300)` is stored (lines 575-577). -/
def rateLimitBackoff (b : ℚ) : ℚ := min (b * 2 * 2) 300

/-- Sleep of the n-th consecutive server-error (or network-error) retry
of one item, starting from stored backoff `b0`: the loop sleeps the
stored backoff and then applies `serverErrorBackoff`. -/
def serverSleeps (b0 : ℚ) : Nat → ℚ
  | 0 => b0
  | n + 1 => serverErrorBackoff (serverSleeps b0 n)

/-!
Worker model.  Both workers (`worker_per_file`, lines 441-610, and
`worker_single`, lines 616-796) run on a dedicated thread, consult the
cancel/pause events and the remote API, put messages on the event
channel `log_q`, and finish through `_done` (lines 799-839).  The
environment `Env` fixes every external response, indexed by a global
tick that advances at each consultation; the trace of a run is a list of
`Act` values recording, in order, the flag checks, the remote calls, the
sleeps and the channel messages.
-/

/-- Result of one remote call: a value, or a transport exception raised
by the HTTP library at that call site. -/
inductive CallRes (α : Type) where
  | ok (val : α)
  | raised
deriving DecidableEq, Repr

/-- Result triple of `_put_file` (lines 292-302): success flag,
rate-limit flag from `_is_rate_limit`, and the error text
`"HTTP code: body"` otherwise. -/
structure PutResp where
  ok : Bool
  rl : Bool
  err : String
deriving DecidableEq, Repr

/-- External environment of one run: the tick at which the one-shot
cancel latch becomes set (if ever), the ticks burnt by each pause
busy-wait, and the response of each remote call or disposal attempt at
each tick. -/
structure Env where
  cancelAt : Option Nat
  waitFuel : Nat → Nat
  sha : Nat → CallRes (Option String)
  put : Nat → CallRes PutResp
  branchSha : Nat → CallRes (Option String)
  treeSha : Nat → CallRes (Option String)
  blob : Nat → CallRes (Option String)
  contentGet : Nat → CallRes (Option String × Option String)
  treeCreate : Nat → CallRes (Option String)
  commitCreate : Nat → CallRes (Option String)
  refUpdate : Nat → CallRes Bool
  dispose : Nat → Bool

/-- Value of the cancel flag at a tick: set exactly from `cancelAt` on
(the flag is a one-shot latch). -/
def Env.cancel (e : Env) (t : Nat) : Bool :=
  match e.cancelAt with
  | none => false
  | some T => decide (T ≤ t)

/-- Delete-after-upload mode (`delete_mode`): keep, recycle, permanent. -/
inductive DelMode where
  | keep
  | recycle
  | permanent
deriving DecidableEq, Repr

/-- Run configuration slice consulted by the transfer loops. -/
structure Cfg where
  delay : ℚ
  dry : Bool
  writeLog : Bool
  delMode : DelMode
  repoFolder : String
deriving DecidableEq

/-- One collected file as the worker sees it: bare name, root-relative
path, the stat result at queue-panel initialisation time (`None` models
an OSError raised inside the `queue_init` list comprehension, lines
474-475 and 645-646), the stat result inside the loop, and whether
`read_bytes` succeeds. -/
structure Item where
  name : String
  rel : String
  sizeQ : Option Nat
  size : Option Nat
  readOk : Bool
deriving DecidableEq, Repr

/-- Repository path of an item (lines 498-499): the prefix-joined
relative path, or the bare relative path when the prefix is empty. -/
def repoPath (cfg : Cfg) (rel : String) : String :=
  if cfg.repoFolder = "" then rel else cfg.repoFolder ++ "/" ++ rel

/-- Path of the session log object, `_log_path` (lines 391-392). -/
def _log_path (cfg : Cfg) : String :=
  if cfg.repoFolder = "" then "files.log" else cfg.repoFolder ++ "/" ++ "files.log"

/-- One element of a run trace: a flag check, a remote call, a sleep, or
a message placed on the event channel (`done` kept distinct, every other
message collapsed into `otherMsg`). -/
inductive Act where
  | headCheck (v : Bool)
  | attCheck (v : Bool)
  | postCheck (v : Bool)
  | shaFetch (path : String)
  | putFile (path : String)
  | contentGet (path : String)
  | blobCreate (path : String)
  | branchGet
  | treeGet
  | treeCreate
  | commitCreate
  | refUpdate
  | sleep (q : ℚ)
  | doneEv (committed failed skipped deleted : Nat)
  | otherMsg
deriving DecidableEq, Repr

/-- Test for the terminating `done` channel message. -/
def Act.isDone : Act → Bool
  | .doneEv .. => true
  | _ => false

/-- Number of `done` events in a trace. -/
def doneCount (l : List Act) : Nat := l.countP Act.isDone

/-- Test for a remote call of any kind. -/
def Act.isRemote : Act → Bool
  | .shaFetch _ | .putFile _ | .contentGet _ | .blobCreate _ => true
  | .branchGet | .treeGet | .treeCreate | .commitCreate | .refUpdate => true
  | _ => false

/-- Test for a cancel-flag check that observed the flag set. -/
def isTrueCheck : Act → Bool
  | .headCheck true | .attCheck true | .postCheck true => true
  | _ => false

/-- Suffix of a trace strictly after the first check that observed the
cancel flag set; empty when no check observed it. -/
def afterFirstTrueCheck : List Act → List Act
  | [] => []
  | a :: rest => if isTrueCheck a then rest else afterFirstTrueCheck rest

/-- Acts permitted after an observed-true cancel check: anything that is
not a remote call, plus the best-effort session-log read and write. -/
def allowedAfterCancel (lp : String) (a : Act) : Bool :=
  match a with
  | .shaFetch _ => false
  | .blobCreate _ => false
  | .branchGet | .treeGet | .treeCreate | .commitCreate | .refUpdate => false
  | .putFile p => p == lp
  | .contentGet p => p == lp
  | _ => true

/-- Classification of one write attempt of the per-file loop
(lines 544-589): transport error on the hash fetch, transport error on
the write, success, rate limit, stale-hash conflict (`"422" in err`),
5xx server error, or terminal client error. -/
inductive AttClass where
  | success
  | rateLimited
  | conflict
  | serverErr
  | netSha
  | netPut
  | fatal (e : String)
deriving DecidableEq, Repr

/-- Test used by the per-file loop for the server-error classification:
any of the four 5xx codes occurs in the error text (line 583). -/
def fiveXX (e : String) : Bool :=
  pyIn "500" e || pyIn "502" e || pyIn "503" e || pyIn "504" e

/-- Classify one attempt given the environment: the hash fetch at tick
`t` and, if it returns, the write at tick `t+1`, classified in source
order (ok, rate limit, conflict, server error, terminal). -/
def classifyAttempt (env : Env) (t : Nat) : AttClass :=
  match env.sha t with
  | .raised => .netSha
  | .ok _ =>
    match env.put (t + 1) with
    | .raised => .netPut
    | .ok r =>
      if r.ok then .success
      else if r.rl then .rateLimited
      else if pyIn "422" r.err then .conflict
      else if fiveXX r.err then .serverErr
      else .fatal r.err

/-- Exit condition of the per-item attempt loop: success break, terminal
client-error break, break on an observed cancel flag, or exhaustion of
the 7-attempt budget. -/
inductive LoopExit where
  | success
  | failedTerm (e : String)
  | cancelled
  | exhausted
deriving DecidableEq, Repr

/-- Record of one executed attempt: its classification, the stored
backoff before and after it, and the sleeps it performed. -/
structure AttemptRec where
  cls : AttClass
  backoffBefore : ℚ
  backoffAfter : ℚ
  sleeps : List ℚ
deriving DecidableEq, Repr

/-- Result of the per-item attempt loop. -/
structure LoopRes where
  exit : LoopExit
  recs : List AttemptRec
  acts : List Act
  tick : Nat
  backoff : ℚ
deriving DecidableEq, Repr

/-- Per-item attempt loop of `worker_per_file`
(`for attempt in range(1, 8)`, lines 538-589).  Each iteration checks
the cancel flag (break when set), waits out a pause, sleeps the
per-call delay, fetches the hash, sleeps again, writes, and dispatches
on the classification: success and terminal errors break; a network
error on either call sleeps the stored backoff and doubles it with
ceiling 120; a rate limit sleeps twice the backoff and stores
`min(wait*2, 300)`; a conflict sleeps the per-call delay and leaves the
backoff unchanged; a server error sleeps the backoff and doubles it
with ceiling 120. -/
def attemptLoop (env : Env) (delay : ℚ) (rp : String) :
    Nat → Nat → ℚ → LoopRes
  | 0, t, b => ⟨.exhausted, [], [], t, b⟩
  | fuel + 1, t, b =>
    if env.cancel t then ⟨.cancelled, [], [.attCheck true], t + 1, b⟩
    else
      let t1 := t + 1 + env.waitFuel (t + 1)
      match classifyAttempt env t1 with
      | .success =>
        ⟨.success, [⟨.success, b, b, [delay, delay]⟩],
         [.attCheck false, .sleep delay, .shaFetch rp, .sleep delay, .putFile rp, .otherMsg],
         t1 + 2, b⟩
      | .fatal e =>
        ⟨.failedTerm e, [⟨.fatal e, b, b, [delay, delay]⟩],
         [.attCheck false, .sleep delay, .shaFetch rp, .sleep delay, .putFile rp, .otherMsg],
         t1 + 2, b⟩
      | .netSha =>
        let r := attemptLoop env delay rp fuel (t1 + 1) (serverErrorBackoff b)
        ⟨r.exit, ⟨.netSha, b, serverErrorBackoff b, [delay, b]⟩ :: r.recs,
         .attCheck false :: .sleep delay :: .shaFetch rp :: .otherMsg :: .sleep b :: r.acts,
         r.tick, r.backoff⟩
      | .netPut =>
        let r := attemptLoop env delay rp fuel (t1 + 2) (serverErrorBackoff b)
        ⟨r.exit, ⟨.netPut, b, serverErrorBackoff b, [delay, delay, b]⟩ :: r.recs,
         .attCheck false :: .sleep delay :: .shaFetch rp :: .sleep delay :: .putFile rp
           :: .otherMsg :: .sleep b :: r.acts,
         r.tick, r.backoff⟩
      | .rateLimited =>
        let r := attemptLoop env delay rp fuel (t1 + 2) (rateLimitBackoff b)
        ⟨r.exit, ⟨.rateLimited, b, rateLimitBackoff b, [delay, delay, b * 2]⟩ :: r.recs,
         .attCheck false :: .sleep delay :: .shaFetch rp :: .sleep delay :: .putFile rp
           :: .otherMsg :: .sleep (b * 2) :: r.acts,
         r.tick, r.backoff⟩
      | .conflict =>
        let r := attemptLoop env delay rp fuel (t1 + 2) b
        ⟨r.exit, ⟨.conflict, b, b, [delay, delay, delay]⟩ :: r.recs,
         .attCheck false :: .sleep delay :: .shaFetch rp :: .sleep delay :: .putFile rp
           :: .otherMsg :: .sleep delay :: r.acts,
         r.tick, r.backoff⟩
      | .serverErr =>
        let r := attemptLoop env delay rp fuel (t1 + 2) (serverErrorBackoff b)
        ⟨r.exit, ⟨.serverErr, b, serverErrorBackoff b, [delay, delay, b]⟩ :: r.recs,
         .attCheck false :: .sleep delay :: .shaFetch rp :: .sleep delay :: .putFile rp
           :: .otherMsg :: .sleep b :: r.acts,
         r.tick, r.backoff⟩

/-- Outcome recorded for one item that was reached; a cancelled
in-flight item records none. -/
inductive Outcome where
  | committed (size : Nat)
  | dryRun
  | skippedUnreadable
  | skippedTooLarge
  | failedRead
  | failedHttp (e : String)
  | failedGaveUp
deriving DecidableEq, Repr

/-- Result of processing one item in per-file mode. -/
structure ItemRes where
  outcome? : Option Outcome
  loopRes? : Option LoopRes
  acts : List Act
  tick : Nat
  deletedInc : Nat

/-- Body of the per-file loop for one item (lines 498-598), entered
after the outer loop-head cancel check read false: stat the file
(unreadable gives a skip), skip any file strictly larger than
`99*1024*1024` bytes before any network call, count a dry run as done
without any call, fail on read errors, and otherwise run the attempt
loop with the backoff seeded by the per-call delay.  After the loop,
`Failed(gave-up)` is recorded only when no outcome was set and a fresh
read of the cancel flag is false; success triggers the optional
disposal. -/
def processItem (env : Env) (cfg : Cfg) (it : Item) (t : Nat) : ItemRes :=
  let rp := repoPath cfg it.rel
  match it.size with
  | none => ⟨some .skippedUnreadable, none, [.otherMsg, .otherMsg, .otherMsg], t, 0⟩
  | some size =>
    if 99 * 1024 * 1024 < size then
      ⟨some .skippedTooLarge, none, [.otherMsg, .otherMsg, .otherMsg], t, 0⟩
    else if cfg.dry then
      ⟨some .dryRun, none, [.otherMsg, .otherMsg, .otherMsg], t, 0⟩
    else if !it.readOk then
      ⟨some .failedRead, none, [.otherMsg, .otherMsg, .otherMsg], t, 0⟩
    else
      let lr := attemptLoop env cfg.delay rp 7 t cfg.delay
      match lr.exit with
      | .success =>
        if cfg.delMode = .keep then
          ⟨some (.committed size), some lr,
           ([.otherMsg, .otherMsg] : List Act) ++ lr.acts ++ [.otherMsg, .otherMsg],
           lr.tick, 0⟩
        else
          ⟨some (.committed size), some lr,
           ([.otherMsg, .otherMsg] : List Act) ++ lr.acts ++ [.otherMsg, .otherMsg, .otherMsg],
           lr.tick + 1, if env.dispose lr.tick then 1 else 0⟩
      | .failedTerm e =>
        ⟨some (.failedHttp e), some lr,
         ([.otherMsg, .otherMsg] : List Act) ++ lr.acts ++ [.otherMsg, .otherMsg],
         lr.tick, 0⟩
      | .cancelled | .exhausted =>
        if env.cancel lr.tick then
          ⟨none, some lr,
           ([.otherMsg, .otherMsg] : List Act) ++ lr.acts ++ [.postCheck true, .otherMsg, .otherMsg],
           lr.tick + 1, 0⟩
        else
          ⟨some .failedGaveUp, some lr,
           ([.otherMsg, .otherMsg] : List Act) ++ lr.acts
             ++ [.postCheck false, .otherMsg, .otherMsg, .otherMsg],
           lr.tick + 1, 0⟩

/-- Result of the per-file outer loop. -/
structure RunRes where
  outcomes : List (Option Outcome)
  acts : List Act
  headTicks : List Nat
  deleted : Nat
  tick : Nat

/-- Outer loop of `worker_per_file` (lines 489-598): for each item in
order, wait out a pause, check the cancel flag (break when set), and
process the item. -/
def runLoop (env : Env) (cfg : Cfg) : List Item → Nat → RunRes
  | [], t => ⟨[], [], [], 0, t⟩
  | it :: rest, t =>
    let t1 := t + env.waitFuel t
    if env.cancel t1 then ⟨[], [.headCheck true, .otherMsg], [t1], 0, t1 + 1⟩
    else
      let r := processItem env cfg it (t1 + 1)
      let rr := runLoop env cfg rest r.tick
      ⟨r.outcome? :: rr.outcomes, .headCheck false :: r.acts ++ rr.acts,
       t1 :: rr.headTicks, r.deletedInc + rr.deleted, rr.tick⟩

/-- Counted as committed: a committed item, or a dry-run item
(the source increments `done` in both branches). -/
def isDoneOutcome : Option Outcome → Bool
  | some (.committed _) => true
  | some .dryRun => true
  | _ => false

/-- Counted as failed: read errors, terminal write errors, gave-up. -/
def isFailedOutcome : Option Outcome → Bool
  | some .failedRead => true
  | some (.failedHttp _) => true
  | some .failedGaveUp => true
  | _ => false

/-- Counted as skipped: unreadable at stat time, or over the size cap. -/
def isSkippedOutcome : Option Outcome → Bool
  | some .skippedUnreadable => true
  | some .skippedTooLarge => true
  | _ => false

/-- Session-log push `_push_log` (lines 420-435): read the current log
content, sleep the per-call delay, write the concatenation.  Every
exception inside it is caught, so it always returns normally; when the
read raises, the write is skipped. -/
def pushLog (env : Env) (cfg : Cfg) (t : Nat) : List Act × Nat :=
  match env.contentGet t with
  | .raised => ([.otherMsg, .contentGet (_log_path cfg), .otherMsg], t + 1)
  | .ok _ =>
    ([.otherMsg, .contentGet (_log_path cfg), .sleep cfg.delay,
      .putFile (_log_path cfg), .otherMsg], t + 2)

/-- Result of a per-file run: whether the worker returned normally
(false models an unhandled exception killing the thread), the trace,
the per-item outcome options in order, the tick of each outer-head
cancel check, and the final counters. -/
structure PFOut where
  normalReturn : Bool
  acts : List Act
  outcomes : List (Option Outcome)
  headTicks : List Nat
  committed : Nat
  failed : Nat
  skipped : Nat
  deleted : Nat

/-- Per-file worker `worker_per_file` (lines 441-610).  An empty
collection emits the `done` event at once.  The `queue_init` list
comprehension stats every file before the loop; an OSError there
propagates and kills the thread before any message reaches the channel
(`normalReturn = false`).  Otherwise the outer loop runs, the session
log is pushed when enabled, non-dry and at least one outcome was
recorded, and `_done` places the final counts on the channel. -/
def worker_per_file (env : Env) (cfg : Cfg) (items : List Item) : PFOut :=
  if items.isEmpty then
    ⟨true, [.otherMsg, .doneEv 0 0 0 0], [], [], 0, 0, 0, 0⟩
  else if items.any (fun it => it.sizeQ.isNone) then
    ⟨false, [], [], [], 0, 0, 0, 0⟩
  else
    let rr := runLoop env cfg items 0
    let c := rr.outcomes.countP isDoneOutcome
    let f := rr.outcomes.countP isFailedOutcome
    let s := rr.outcomes.countP isSkippedOutcome
    let pl :=
      if cfg.writeLog && !cfg.dry && rr.outcomes.any (fun o => o.isSome) then
        pushLog env cfg rr.tick
      else ([], rr.tick)
    ⟨true,
     ([.otherMsg, .otherMsg] : List Act) ++ rr.acts ++ pl.1
       ++ [.otherMsg, .doneEv c f s rr.deleted],
     rr.outcomes, rr.headTicks, c, f, s, rr.deleted⟩

/-!
Atomic-mode worker `worker_single` (lines 616-796): a read phase over
the collected items, then branch/tree resolution, a blob-creation loop,
the optional session-log blob, and the tree/commit/ref sequence.  The
calls of the commit phase other than `_create_blob` inside its retry
loop are not wrapped in an exception handler, so a transport exception
there kills the thread (`normalReturn = false`).
-/

/-- Result of the atomic-mode read phase. -/
structure ReadRes where
  cancelled : Bool
  fileData : List (String × Nat × Item)
  failed : Nat
  skipped : Nat
  acts : List Act
  tick : Nat

/-- Classification of one item by the read phase (lines 670-689):
unreadable at stat time, strictly over the 99 MiB cap, read failure, or
read into `file_data` with its repository path and size. -/
inductive ReadCase where
  | unreadable
  | tooLarge
  | readFail
  | okRead (rp : String) (size : Nat)
deriving DecidableEq, Repr

/-- Classify one item exactly as the read-phase body does: stat, the
strict `size > 99*1024*1024` test, then the read. -/
def readCase (cfg : Cfg) (it : Item) : ReadCase :=
  match it.size with
  | none => .unreadable
  | some size =>
    if 99 * 1024 * 1024 < size then .tooLarge
    else if !it.readOk then .readFail
    else .okRead (repoPath cfg it.rel) size

/-- Read phase of `worker_single` (lines 661-691): for each item in
order, wait out a pause, check the cancel flag (stop when set), then
stat (unreadable skips), apply the strict `size > 99*1024*1024` cap
(skip), read (failure records a failed outcome), and otherwise add the
item to `file_data`.  No remote call is made in this phase. -/
def readPhase (env : Env) (cfg : Cfg) : List Item → Nat → ReadRes
  | [], t => ⟨false, [], 0, 0, [], t⟩
  | it :: rest, t =>
    let t1 := t + env.waitFuel t
    if env.cancel t1 then ⟨true, [], 0, 0, [.headCheck true, .otherMsg], t1 + 1⟩
    else
      let r := readPhase env cfg rest (t1 + 1)
      let acts := Act.headCheck false :: Act.otherMsg :: Act.otherMsg :: r.acts
      match readCase cfg it with
      | .unreadable => ⟨r.cancelled, r.fileData, r.failed, r.skipped + 1, acts, r.tick⟩
      | .tooLarge => ⟨r.cancelled, r.fileData, r.failed, r.skipped + 1, acts, r.tick⟩
      | .readFail => ⟨r.cancelled, r.fileData, r.failed + 1, r.skipped, acts, r.tick⟩
      | .okRead rp size =>
        ⟨r.cancelled, (rp, size, it) :: r.fileData, r.failed, r.skipped, acts, r.tick⟩

/-- Blob-creation retries (lines 726-731): up to 4 attempts; a falsy
result retries at once, a raised exception logs and sleeps `2**att`. -/
def blobAttempts (env : Env) (rp : String) : Nat → Nat → Option String × List Act × Nat
  | 0, t => (none, [], t)
  | fuel + 1, t =>
    match env.blob t with
    | .ok (some sha) => (some sha, [.blobCreate rp], t + 1)
    | .ok none =>
      let r := blobAttempts env rp fuel (t + 1)
      (r.1, .blobCreate rp :: r.2.1, r.2.2)
    | .raised =>
      let r := blobAttempts env rp fuel (t + 1)
      (r.1, .blobCreate rp :: .otherMsg :: .sleep ((2 : ℚ) ^ (5 - (fuel + 1))) :: r.2.1,
       r.2.2)

/-- Result of the atomic-mode blob loop. -/
structure BlobRes where
  cancelled : Bool
  treeItems : List (String × String)
  committedCnt : Nat
  failedInc : Nat
  acts : List Act
  tick : Nat

/-- Blob loop of `worker_single` (lines 717-744): for each read file in
order, wait out a pause, check the cancel flag (stop when set), create
its blob with bounded retries; exhausted retries record a failed
outcome for that file only, success appends a tree entry. -/
def blobPhase (env : Env) : List (String × Nat × Item) → Nat → BlobRes
  | [], t => ⟨false, [], 0, 0, [], t⟩
  | (rp, _size, _it) :: rest, t =>
    let t1 := t + env.waitFuel t
    if env.cancel t1 then ⟨true, [], 0, 0, [.headCheck true, .otherMsg], t1 + 1⟩
    else
      let ba := blobAttempts env rp 4 (t1 + 1)
      match ba.1 with
      | none =>
        let r := blobPhase env rest ba.2.2
        ⟨r.cancelled, r.treeItems, r.committedCnt, r.failedInc + 1,
         .headCheck false :: .otherMsg :: ba.2.1 ++ .otherMsg :: r.acts, r.tick⟩
      | some sha =>
        let r := blobPhase env rest ba.2.2
        ⟨r.cancelled, (rp, sha) :: r.treeItems, r.committedCnt + 1, r.failedInc,
         .headCheck false :: .otherMsg :: ba.2.1 ++ .otherMsg :: r.acts, r.tick⟩

/-- Disposal sweep after a successful ref move (lines 785-793): dispose
each read file whose path reached a successful blob, counting the
successful disposals. -/
def disposeLoop (env : Env) (okPaths : List String) :
    List (String × Nat × Item) → Nat → Nat × Nat
  | [], t => (0, t)
  | (rp, _size, _it) :: rest, t =>
    if okPaths.contains rp then
      let d := disposeLoop env okPaths rest (t + 1)
      ((if env.dispose t then 1 else 0) + d.1, d.2)
    else
      disposeLoop env okPaths rest t

/-- Session-log blob step of `worker_single` (lines 749-761): read the
current log content (a transport exception propagates), create one blob
for the appended log (a transport exception propagates), and on a
truthy blob hash upsert the tree entry for the log path, replacing any
prior entry.  The first component is `none` when an exception
propagated; the second is the acts performed; the third the next tick. -/
def logBlobStep (env : Env) (lp : String) (ti : List (String × String)) (t : Nat) :
    Option (List (String × String)) × List Act × Nat :=
  match env.contentGet t with
  | .raised => (none, [.otherMsg, .contentGet lp], t + 1)
  | .ok _ =>
    match env.blob (t + 1) with
    | .raised => (none, [.otherMsg, .contentGet lp, .blobCreate lp], t + 2)
    | .ok none => (some ti, [.otherMsg, .contentGet lp, .blobCreate lp], t + 2)
    | .ok (some lb) =>
      (some (ti.filter (fun e => e.1 ≠ lp) ++ [(lp, lb)]),
       [.otherMsg, .contentGet lp, .blobCreate lp, .otherMsg], t + 2)

/-- Result of an atomic-mode run: whether the worker returned normally,
the trace, and the counter values at the point of return. -/
structure WSOut where
  normalReturn : Bool
  acts : List Act
  committedCnt : Nat
  failedCnt : Nat
  skippedCnt : Nat

/-- The session-log step as guarded by the `write_files_log` flag
(line 750): when disabled the tree entries pass through unchanged with
no call made. -/
def logStepOf (env : Env) (cfg : Cfg) (ti : List (String × String)) (t : Nat) :
    Option (List (String × String)) × List Act × Nat :=
  if cfg.writeLog then logBlobStep env (_log_path cfg) ti t else (some ti, [], t)

/-- Final tree/commit/ref sequence of `worker_single` (lines 763-796):
an empty entry set aborts with nothing to commit; each of the three
steps aborts the run when falsy and kills the thread when it raises;
after a successful ref move the disposal sweep runs over the read files
whose blobs succeeded, and the `done` event carries the real counts. -/
def commitPhase (env : Env) (cfg : Cfg) (okPaths : List String)
    (fd : List (String × Nat × Item)) (cc fc sc : Nat)
    (treeItems : List (String × String)) (t : Nat) : WSOut :=
  if treeItems.isEmpty then ⟨true, [.otherMsg, .doneEv 0 0 0 0], cc, fc, sc⟩
  else
    match env.treeCreate t with
    | .raised => ⟨false, [.treeCreate], cc, fc, sc⟩
    | .ok none => ⟨true, [.treeCreate, .otherMsg, .doneEv 0 0 0 0], cc, fc, sc⟩
    | .ok (some _nt) =>
      match env.commitCreate (t + 1) with
      | .raised => ⟨false, [.treeCreate, .commitCreate], cc, fc, sc⟩
      | .ok none => ⟨true, [.treeCreate, .commitCreate, .otherMsg, .doneEv 0 0 0 0], cc, fc, sc⟩
      | .ok (some _nc) =>
        match env.refUpdate (t + 2) with
        | .raised => ⟨false, [.treeCreate, .commitCreate, .refUpdate], cc, fc, sc⟩
        | .ok false =>
          ⟨true, [.treeCreate, .commitCreate, .refUpdate, .otherMsg, .doneEv 0 0 0 0],
           cc, fc, sc⟩
        | .ok true =>
          let deleted :=
            if cfg.delMode = .keep then 0 else (disposeLoop env okPaths fd (t + 3)).1
          ⟨true, [.treeCreate, .commitCreate, .refUpdate, .otherMsg, .doneEv cc fc sc deleted],
           cc, fc, sc⟩

/-- Atomic-mode worker `worker_single` (lines 616-796).  Empty
collection, read-phase cancellation, dry run, empty read set, a missing
branch or tree, blob-loop cancellation, an empty tree-entry set and any
falsy tree/commit/ref step all emit one `done` event and return;
transport exceptions in the branch or tree lookups, the session-log
read, the session-log blob creation, or the tree/commit/ref calls
propagate and kill the thread without a `done` event.  Note that every
early `done` carries zeroed counts even when the read or blob phase had
already accumulated failures. -/
def worker_single (env : Env) (cfg : Cfg) (items : List Item) : WSOut :=
  if items.isEmpty then ⟨true, [.otherMsg, .doneEv 0 0 0 0], 0, 0, 0⟩
  else if items.any (fun it => it.sizeQ.isNone) then ⟨false, [], 0, 0, 0⟩
  else
    let pre : List Act := [.otherMsg, .otherMsg]
    let r := readPhase env cfg items 0
    if r.cancelled then
      ⟨true, pre ++ r.acts ++ [.doneEv 0 0 0 0], 0, r.failed, r.skipped⟩
    else if cfg.dry then
      ⟨true, pre ++ r.acts ++ [.otherMsg, .doneEv r.fileData.length r.failed r.skipped 0],
       r.fileData.length, r.failed, r.skipped⟩
    else if r.fileData.isEmpty then
      ⟨true, pre ++ r.acts ++ [.otherMsg, .doneEv 0 0 0 0], 0, r.failed, r.skipped⟩
    else
      match env.branchSha r.tick with
      | .raised => ⟨false, pre ++ r.acts ++ [.branchGet], 0, r.failed, r.skipped⟩
      | .ok none =>
        ⟨true, pre ++ r.acts ++ [.branchGet, .otherMsg, .doneEv 0 0 0 0],
         0, r.failed, r.skipped⟩
      | .ok (some _c) =>
        match env.treeSha (r.tick + 1) with
        | .raised => ⟨false, pre ++ r.acts ++ [.branchGet, .treeGet], 0, r.failed, r.skipped⟩
        | .ok none =>
          ⟨true, pre ++ r.acts ++ [.branchGet, .treeGet, .otherMsg, .doneEv 0 0 0 0],
           0, r.failed, r.skipped⟩
        | .ok (some _tr) =>
          let b := blobPhase env r.fileData (r.tick + 2)
          let acts1 := pre ++ r.acts ++ ([.branchGet, .treeGet, .otherMsg] : List Act) ++ b.acts
          if b.cancelled then
            ⟨true, acts1 ++ [.doneEv 0 0 0 0],
             b.committedCnt, r.failed + b.failedInc, r.skipped⟩
          else
            let ls := logStepOf env cfg b.treeItems b.tick
            match ls.1 with
            | none =>
              ⟨false, acts1 ++ ls.2.1, b.committedCnt, r.failed + b.failedInc, r.skipped⟩
            | some treeItems =>
              let res := commitPhase env cfg (b.treeItems.map (fun e => e.1)) r.fileData
                b.committedCnt (r.failed + b.failedInc) r.skipped treeItems ls.2.2
              ⟨res.normalReturn, acts1 ++ ls.2.1 ++ res.acts,
               res.committedCnt, res.failedCnt, res.skippedCnt⟩

/-!
Concrete fixtures: benign environment, configuration and items used to
instantiate the theorems on fully evaluated runs.
-/

/-- Benign environment: never cancelled, no pause, every remote call
succeeds (hash lookups report a missing path, writes succeed). -/
def env0 : Env where
  cancelAt := none
  waitFuel := fun _ => 0
  sha := fun _ => .ok none
  put := fun _ => .ok ⟨true, false, ""⟩
  branchSha := fun _ => .ok (some "c0")
  treeSha := fun _ => .ok (some "t0")
  blob := fun _ => .ok (some "b0")
  contentGet := fun _ => .ok (none, none)
  treeCreate := fun _ => .ok (some "nt")
  commitCreate := fun _ => .ok (some "nc")
  refUpdate := fun _ => .ok true
  dispose := fun _ => true

/-- Environment whose every write is rate-limited. -/
def envRL : Env := { env0 with put := fun _ => .ok ⟨false, true, "HTTP 403: rate limit"⟩ }

/-- Environment whose every write reports a stale-hash conflict. -/
def env422 : Env := { env0 with put := fun _ => .ok ⟨false, false, "HTTP 422: conflict"⟩ }

/-- Environment whose every write reports a 500 server error. -/
def env500 : Env := { env0 with put := fun _ => .ok ⟨false, false, "HTTP 500: boom"⟩ }

/-- Environment whose branch lookup raises a transport exception. -/
def envBranchRaise : Env := { env0 with branchSha := fun _ => .raised }

/-- Environment whose branch lookup reports a missing branch. -/
def envBranchNone : Env := { env0 with branchSha := fun _ => .ok none }

/-- Environment whose cancel latch becomes set at tick 2. -/
def envCancel2 : Env := { env0 with cancelAt := some 2 }

/-- Default configuration: delay 1, real run, session log enabled, no
deletion, empty target prefix. -/
def cfg0 : Cfg := ⟨1, false, true, .keep, ""⟩

/-- Small readable item. -/
def itemA : Item := ⟨"a.txt", "a.txt", some 10, some 10, true⟩

/-- Second small readable item. -/
def itemB : Item := ⟨"b.txt", "b.txt", some 20, some 20, true⟩

/-- Item whose size is exactly the 99 MiB boundary. -/
def itemEdge : Item := ⟨"edge.bin", "edge.bin", some (99 * 1024 * 1024), some (99 * 1024 * 1024), true⟩

/-- Item strictly above the 99 MiB boundary. -/
def itemBig : Item := ⟨"big.bin", "big.bin", some (99 * 1024 * 1024 + 1), some (99 * 1024 * 1024 + 1), true⟩

/-- Item whose read fails. -/
def itemNoRead : Item := ⟨"nr.txt", "nr.txt", some 5, some 5, false⟩

/-- Walked file in a nested directory: the pattern `d/*` matches its
root-relative path but neither its bare name nor its full walked path. -/
def feNested : FileEntry := ⟨"a.txt", "r/d/a.txt", "d/a.txt", ".txt"⟩

/-- Walked file at the root of the walk. -/
def feX : FileEntry := ⟨"x.txt", "r/x.txt", "x.txt", ".txt"⟩

/-- Remote repository state holding hash `abc` at every path. -/
def remoteX : String → Option String := fun _ => some "abc"

/-- Successful hash-lookup response for an existing path. -/
def resp200 : HttpResp := ⟨200, some "abc"⟩

/-- Server-error response, possible for any path. -/
def resp500 : HttpResp := ⟨500, none⟩

/-!
Helper lemmas: the cancel latch is monotone, ticks only grow along a
run, traces decompose through `afterFirstTrueCheck`, and no inner layer
of either worker emits a `done` event.
-/

/-- The cancel flag is a one-shot latch: once observed set it stays set. -/
theorem cancel_mono (env : Env) {t u : Nat} (h : env.cancel t = true) (hle : t ≤ u) :
    env.cancel u = true := by
  unfold Env.cancel at h ⊢
  cases hca : env.cancelAt with
  | none => simp [hca] at h
  | some T =>
    simp only [hca] at h ⊢
    simp only [decide_eq_true_eq] at h ⊢
    omega

/-- A set cancel flag implies the latch was scheduled. -/
theorem cancelAt_of_cancel (env : Env) {t : Nat} (h : env.cancel t = true) :
    env.cancelAt ≠ none := by
  unfold Env.cancel at h
  cases hca : env.cancelAt with
  | none => simp [hca] at h
  | some T => simp

/-- Ticks never decrease across the attempt loop. -/
theorem attemptLoop_tick_le (env : Env) (d : ℚ) (rp : String) :
    ∀ fuel t b, t ≤ (attemptLoop env d rp fuel t b).tick := by
  intro fuel
  induction fuel with
  | zero => intro t b; simp [attemptLoop]
  | succ n ih =>
    intro t b
    by_cases hc : env.cancel t
    · simp [attemptLoop, hc]
    · cases hcl : classifyAttempt env (t + 1 + env.waitFuel (t + 1)) <;>
        simp [attemptLoop, hc, hcl] <;>
        first
          | omega
          | exact le_trans (by omega) (ih _ _)

/-- Ticks never decrease across one item. -/
theorem processItem_tick_le (env : Env) (cfg : Cfg) (it : Item) (t : Nat) :
    t ≤ (processItem env cfg it t).tick := by
  have hl := attemptLoop_tick_le env cfg.delay (repoPath cfg it.rel) 7 t cfg.delay
  unfold processItem
  cases it.size with
  | none => simp
  | some size =>
    dsimp only
    split
    · simp
    split
    · simp
    split
    · simp
    cases hex : (attemptLoop env cfg.delay (repoPath cfg it.rel) 7 t cfg.delay).exit <;>
      (try dsimp only) <;> (try split) <;> (try dsimp only) <;> omega

/-- Ticks never decrease across the outer per-file loop. -/
theorem runLoop_tick_le (env : Env) (cfg : Cfg) :
    ∀ items t, t ≤ (runLoop env cfg items t).tick := by
  intro items
  induction items with
  | nil => intro t; simp [runLoop]
  | cons it rest ih =>
    intro t
    by_cases hc : env.cancel (t + env.waitFuel t)
    · simp [runLoop, hc]; omega
    · have h1 := processItem_tick_le env cfg it (t + env.waitFuel t + 1)
      have h2 := ih (processItem env cfg it (t + env.waitFuel t + 1)).tick
      simp [runLoop, hc]
      omega

/-- A trace with no observed-true check has an empty cancel suffix. -/
theorem afc_eq_nil_of_no_true {l : List Act} (h : l.any isTrueCheck = false) :
    afterFirstTrueCheck l = [] := by
  induction l with
  | nil => simp [afterFirstTrueCheck]
  | cons a rest ih =>
    simp only [List.any_cons, Bool.or_eq_false_iff] at h
    simp [afterFirstTrueCheck, h.1, ih h.2]

/-- Cancel suffix of an append whose first part holds a true check. -/
theorem afc_append_pos {l1 l2 : List Act} (h : l1.any isTrueCheck = true) :
    afterFirstTrueCheck (l1 ++ l2) = afterFirstTrueCheck l1 ++ l2 := by
  induction l1 with
  | nil => simp at h
  | cons a rest ih =>
    by_cases ha : isTrueCheck a
    · simp [afterFirstTrueCheck, ha]
    · simp only [List.any_cons, ha, Bool.false_or] at h
      simp [afterFirstTrueCheck, ha, ih h]

/-- Cancel suffix of an append whose first part holds no true check. -/
theorem afc_append_neg {l1 l2 : List Act} (h : l1.any isTrueCheck = false) :
    afterFirstTrueCheck (l1 ++ l2) = afterFirstTrueCheck l2 := by
  induction l1 with
  | nil => simp [afterFirstTrueCheck]
  | cons a rest ih =>
    simp only [List.any_cons, Bool.or_eq_false_iff] at h
    simp [afterFirstTrueCheck, h.1, ih h.2]

/-- Lists whose members are never `done` events count zero of them. -/
theorem doneCount_eq_zero {l : List Act} (h : ∀ a ∈ l, Act.isDone a = false) :
    doneCount l = 0 := by
  simp only [doneCount, List.countP_eq_zero]
  intro a ha
  simp [h a ha]

/-- The attempt loop places no `done` event on the channel. -/
theorem attemptLoop_no_done (env : Env) (d : ℚ) (rp : String) :
    ∀ fuel t b, ∀ a ∈ (attemptLoop env d rp fuel t b).acts, Act.isDone a = false := by
  intro fuel
  induction fuel with
  | zero => intro t b a ha; simp [attemptLoop] at ha
  | succ n ih =>
    intro t b
    by_cases hc : env.cancel t
    · simp [attemptLoop, hc, Act.isDone]
    · cases hcl : classifyAttempt env (t + 1 + env.waitFuel (t + 1)) <;>
        simp [attemptLoop, hc, hcl, Act.isDone, List.forall_mem_cons] <;>
        (intro a ha; simpa using ih _ _ a ha)

/-- Processing one item places no `done` event on the channel. -/
theorem processItem_no_done (env : Env) (cfg : Cfg) (it : Item) (t : Nat) :
    ∀ a ∈ (processItem env cfg it t).acts, Act.isDone a = false := by
  have hl := attemptLoop_no_done env cfg.delay (repoPath cfg it.rel) 7 t cfg.delay
  unfold processItem
  cases it.size with
  | none => simp [Act.isDone]
  | some size =>
    dsimp only
    split
    · simp [Act.isDone]
    split
    · simp [Act.isDone]
    split
    · simp [Act.isDone]
    cases hex : (attemptLoop env cfg.delay (repoPath cfg it.rel) 7 t cfg.delay).exit <;>
      (try dsimp only) <;> (try split) <;>
      simp [Act.isDone, List.forall_mem_cons, List.forall_mem_append] <;>
      (intro a ha
       rcases ha with ha | ha
       · simpa using hl a ha
       · first
           | (rcases ha with rfl | rfl <;> rfl)
           | (subst ha; rfl))

/-- The outer per-file loop places no `done` event on the channel. -/
theorem runLoop_no_done (env : Env) (cfg : Cfg) :
    ∀ items t, ∀ a ∈ (runLoop env cfg items t).acts, Act.isDone a = false := by
  intro items
  induction items with
  | nil => intro t a ha; simp [runLoop] at ha
  | cons it rest ih =>
    intro t
    by_cases hc : env.cancel (t + env.waitFuel t)
    · simp [runLoop, hc, Act.isDone]
    · have h1 := processItem_no_done env cfg it (t + env.waitFuel t + 1)
      simp only [runLoop, hc]
      simp [Act.isDone, List.forall_mem_cons, List.forall_mem_append]
      intro a ha
      rcases ha with ha | ha
      · simpa using h1 a ha
      · simpa using ih _ a ha

/-- The session-log push places no `done` event on the channel. -/
theorem pushLog_no_done (env : Env) (cfg : Cfg) (t : Nat) :
    ∀ a ∈ (pushLog env cfg t).1, Act.isDone a = false := by
  unfold pushLog
  cases h : env.contentGet t <;> simp [Act.isDone]

/-- The read phase places no `done` event on the channel. -/
theorem readPhase_no_done (env : Env) (cfg : Cfg) :
    ∀ items t, ∀ a ∈ (readPhase env cfg items t).acts, Act.isDone a = false := by
  intro items
  induction items with
  | nil => intro t a ha; simp [readPhase] at ha
  | cons it rest ih =>
    intro t
    by_cases hc : env.cancel (t + env.waitFuel t)
    · simp [readPhase, hc, Act.isDone]
    · unfold readPhase
      simp only [hc]
      cases hrc : readCase cfg it <;>
        simp [Act.isDone, List.forall_mem_cons] <;>
        (intro a ha; simpa using ih _ a ha)

/-- The blob retries place no `done` event on the channel. -/
theorem blobAttempts_no_done (env : Env) (rp : String) :
    ∀ fuel t, ∀ a ∈ (blobAttempts env rp fuel t).2.1, Act.isDone a = false := by
  intro fuel
  induction fuel with
  | zero => intro t a ha; simp [blobAttempts] at ha
  | succ n ih =>
    intro t
    unfold blobAttempts
    cases hb : env.blob t with
    | raised =>
      simp [Act.isDone, List.forall_mem_cons]
      intro a ha; simpa using ih _ a ha
    | ok v =>
      cases v with
      | none =>
        simp [Act.isDone, List.forall_mem_cons]
        intro a ha; simpa using ih _ a ha
      | some sha => simp [Act.isDone]

/-- The blob loop places no `done` event on the channel. -/
theorem blobPhase_no_done (env : Env) :
    ∀ fd t, ∀ a ∈ (blobPhase env fd t).acts, Act.isDone a = false := by
  intro fd
  induction fd with
  | nil => intro t a ha; simp [blobPhase] at ha
  | cons e rest ih =>
    intro t
    rcases e with ⟨rp, sz, it⟩
    by_cases hc : env.cancel (t + env.waitFuel t)
    · simp [blobPhase, hc, Act.isDone]
    · have hba := blobAttempts_no_done env rp 4 (t + env.waitFuel t + 1)
      unfold blobPhase
      simp only [hc]
      cases hb : (blobAttempts env rp 4 (t + env.waitFuel t + 1)).1 <;>
        simp [Act.isDone, List.forall_mem_cons, List.forall_mem_append, or_imp]
      all_goals
        intro a
        repeat' apply And.intro
        all_goals
          intro h
          first
            | (subst h; rfl)
            | (simpa using hba a h)
            | (simpa using ih _ a h)

/-- The session-log blob step places no `done` event on the channel. -/
theorem logBlobStep_no_done (env : Env) (lp : String) (ti : List (String × String)) (t : Nat) :
    ∀ a ∈ (logBlobStep env lp ti t).2.1, Act.isDone a = false := by
  unfold logBlobStep
  cases h1 : env.contentGet t with
  | raised => simp [Act.isDone]
  | ok v =>
    cases h2 : env.blob (t + 1) with
    | raised => simp [Act.isDone]
    | ok w => cases w <;> simp [Act.isDone]

/-- Master count for the per-file worker: exactly one `done` event on a
normal return, none when the thread dies. -/
theorem worker_per_file_doneCount (env : Env) (cfg : Cfg) (items : List Item) :
    doneCount (worker_per_file env cfg items).acts
      = (if (worker_per_file env cfg items).normalReturn then 1 else 0) := by
  unfold worker_per_file
  split
  · simp [doneCount, Act.isDone, List.countP_cons]
  split
  · simp [doneCount, Act.isDone]
  · have h1 := doneCount_eq_zero (runLoop_no_done env cfg items 0)
    have h2 := doneCount_eq_zero (pushLog_no_done env cfg (runLoop env cfg items 0).tick)
    simp only [doneCount, List.countP_append] at h1 h2 ⊢
    (try dsimp only)
    split <;>
      simp [doneCount, Act.isDone, List.countP_append, List.countP_cons, h1, h2]

/-- Count of `done` events distributes over appends. -/
theorem doneCount_append (l1 l2 : List Act) :
    doneCount (l1 ++ l2) = doneCount l1 + doneCount l2 :=
  List.countP_append _ _ _

/-- Count of `done` events in an empty trace. -/
theorem doneCount_nil : doneCount [] = 0 := rfl

/-- Count of `done` events through a cons cell. -/
theorem doneCount_cons (a : Act) (l : List Act) :
    doneCount (a :: l) = doneCount l + (if Act.isDone a then 1 else 0) :=
  List.countP_cons _ _ _

/-- The guarded session-log step places no `done` event. -/
theorem logStepOf_no_done (env : Env) (cfg : Cfg) (ti : List (String × String)) (t : Nat) :
    ∀ a ∈ (logStepOf env cfg ti t).2.1, Act.isDone a = false := by
  unfold logStepOf
  by_cases hw : cfg.writeLog
  · simpa [hw] using logBlobStep_no_done env (_log_path cfg) ti t
  · simp [hw]

/-- The commit phase emits exactly one `done` event on a normal return
and none when one of its calls raises. -/
theorem commitPhase_doneCount (env : Env) (cfg : Cfg) (okPaths : List String)
    (fd : List (String × Nat × Item)) (cc fc sc : Nat)
    (treeItems : List (String × String)) (t : Nat) :
    doneCount (commitPhase env cfg okPaths fd cc fc sc treeItems t).acts
      = (if (commitPhase env cfg okPaths fd cc fc sc treeItems t).normalReturn
          then 1 else 0) := by
  unfold commitPhase
  by_cases h1 : treeItems.isEmpty
  · simp [h1, doneCount, Act.isDone]
  · simp only [h1]
    cases h2 : env.treeCreate t with
    | raised => simp [doneCount, Act.isDone]
    | ok v2 =>
      cases v2 with
      | none => simp [doneCount, Act.isDone]
      | some nt =>
        cases h3 : env.commitCreate (t + 1) with
        | raised => simp [doneCount, Act.isDone]
        | ok v3 =>
          cases v3 with
          | none => simp [doneCount, Act.isDone]
          | some nc =>
            cases h4 : env.refUpdate (t + 2) with
            | raised => simp [doneCount, Act.isDone]
            | ok v4 => cases v4 <;> simp [doneCount, Act.isDone]

/-- Master count for the atomic-mode worker: exactly one `done` event
on a normal return, none when the thread dies. -/
theorem worker_single_doneCount (env : Env) (cfg : Cfg) (items : List Item) :
    doneCount (worker_single env cfg items).acts
      = (if (worker_single env cfg items).normalReturn then 1 else 0) := by
  have hr := doneCount_eq_zero (readPhase_no_done env cfg items 0)
  have hb : ∀ t, doneCount (blobPhase env (readPhase env cfg items 0).fileData t).acts = 0 :=
    fun t => doneCount_eq_zero (blobPhase_no_done env (readPhase env cfg items 0).fileData t)
  have hls : ∀ ti t, doneCount (logStepOf env cfg ti t).2.1 = 0 :=
    fun ti t => doneCount_eq_zero (logStepOf_no_done env cfg ti t)
  by_cases h1 : items.isEmpty
  · simp [worker_single, h1, doneCount_nil, doneCount_cons, Act.isDone]
  by_cases h2 : items.any fun it => it.sizeQ.isNone
  · simp [worker_single, h1, h2, doneCount_nil, doneCount_cons, Act.isDone]
  by_cases h3 : (readPhase env cfg items 0).cancelled
  · simp [worker_single, h1, h2, h3, doneCount_append, hr, doneCount_nil, doneCount_cons, Act.isDone]
  by_cases h4 : cfg.dry
  · simp [worker_single, h1, h2, h3, h4, doneCount_append, hr, doneCount_nil, doneCount_cons, Act.isDone]
  by_cases h5 : (readPhase env cfg items 0).fileData.isEmpty
  · simp [worker_single, h1, h2, h3, h4, h5, doneCount_append, hr, doneCount_nil, doneCount_cons, Act.isDone]
  cases h6 : env.branchSha (readPhase env cfg items 0).tick with
  | raised => simp [worker_single, h1, h2, h3, h4, h5, h6, doneCount_append, hr, doneCount_nil, doneCount_cons, Act.isDone]
  | ok v6 =>
    cases v6 with
    | none => simp [worker_single, h1, h2, h3, h4, h5, h6, doneCount_append, hr, doneCount_nil, doneCount_cons, Act.isDone]
    | some c =>
      cases h7 : env.treeSha ((readPhase env cfg items 0).tick + 1) with
      | raised =>
        simp [worker_single, h1, h2, h3, h4, h5, h6, h7, doneCount_append, hr, doneCount_nil, doneCount_cons, Act.isDone]
      | ok v7 =>
        cases v7 with
        | none =>
          simp [worker_single, h1, h2, h3, h4, h5, h6, h7, doneCount_append, hr, doneCount_nil, doneCount_cons, Act.isDone]
        | some tr =>
          by_cases h8 : (blobPhase env (readPhase env cfg items 0).fileData
              ((readPhase env cfg items 0).tick + 2)).cancelled
          · simp [worker_single, h1, h2, h3, h4, h5, h6, h7, h8, doneCount_append, hr, hb,
                  doneCount_nil, doneCount_cons, Act.isDone]
          cases h9 : (logStepOf env cfg
              (blobPhase env (readPhase env cfg items 0).fileData
                ((readPhase env cfg items 0).tick + 2)).treeItems
              (blobPhase env (readPhase env cfg items 0).fileData
                ((readPhase env cfg items 0).tick + 2)).tick).1 with
          | none =>
            simp [worker_single, h1, h2, h3, h4, h5, h6, h7, h8, h9, doneCount_append, hr, hb,
                  hls, doneCount_nil, doneCount_cons, Act.isDone]
          | some ti =>
            have hcp := commitPhase_doneCount env cfg
              ((blobPhase env (readPhase env cfg items 0).fileData
                ((readPhase env cfg items 0).tick + 2)).treeItems.map (fun e => e.1))
              (readPhase env cfg items 0).fileData
              (blobPhase env (readPhase env cfg items 0).fileData
                ((readPhase env cfg items 0).tick + 2)).committedCnt
              ((readPhase env cfg items 0).failed +
                (blobPhase env (readPhase env cfg items 0).fileData
                  ((readPhase env cfg items 0).tick + 2)).failedInc)
              (readPhase env cfg items 0).skipped ti
              (logStepOf env cfg
                (blobPhase env (readPhase env cfg items 0).fileData
                  ((readPhase env cfg items 0).tick + 2)).treeItems
                (blobPhase env (readPhase env cfg items 0).fileData
                  ((readPhase env cfg items 0).tick + 2)).tick).2.2
            simp [worker_single, h1, h2, h3, h4, h5, h6, h7, h8, h9, doneCount_append, hr, hb,
                  hls, hcp, doneCount_nil, doneCount_cons, Act.isDone]

/-!
Claim theorems.
-/

/-- C1 (corrected): in both modes, every run that terminates by
returning normally places exactly one terminating `done` event on the
event channel, and no run ever places more than one; a run terminated
by an unhandled transport exception places none. -/
theorem c1_done_event_exactly_once (env : Env) (cfg : Cfg) (items : List Item) :
    ((worker_per_file env cfg items).normalReturn = true →
      doneCount (worker_per_file env cfg items).acts = 1)
  ∧ doneCount (worker_per_file env cfg items).acts ≤ 1
  ∧ ((worker_single env cfg items).normalReturn = true →
      doneCount (worker_single env cfg items).acts = 1)
  ∧ doneCount (worker_single env cfg items).acts ≤ 1 := by
  have h1 := worker_per_file_doneCount env cfg items
  have h2 := worker_single_doneCount env cfg items
  refine ⟨fun h => ?_, ?_, fun h => ?_, ?_⟩
  · rw [h1, if_pos h]
  · rw [h1]; split <;> omega
  · rw [h2, if_pos h]
  · rw [h2]; split <;> omega

/-- C1 counterexample: the claim as stated fails.  With one readable
item and a branch lookup that raises a transport exception, the
atomic-mode worker terminates without placing any `done` event, so a
channel consumer blocks forever; and on a fatal-batch abort (missing
branch) the single emitted `done` event carries zeroed counts although
a read failure had already been recorded, so it does not carry the
final counts. -/
theorem c1_counterexample :
    (worker_single envBranchRaise cfg0 [itemA]).normalReturn = false
  ∧ doneCount (worker_single envBranchRaise cfg0 [itemA]).acts = 0
  ∧ (worker_single envBranchNone cfg0 [itemNoRead, itemA]).failedCnt = 1
  ∧ Act.doneEv 0 0 0 0 ∈ (worker_single envBranchNone cfg0 [itemNoRead, itemA]).acts := by
  refine ⟨?_, ?_, ?_, ?_⟩ <;> decide

/-- C1 witness: on a benign environment both workers return normally
and the trace carries exactly one `done` event. -/
theorem c1_witness :
    (worker_per_file env0 cfg0 [itemA]).normalReturn = true
  ∧ doneCount (worker_per_file env0 cfg0 [itemA]).acts = 1
  ∧ (worker_single env0 cfg0 [itemA]).normalReturn = true
  ∧ doneCount (worker_single env0 cfg0 [itemA]).acts = 1 :=
  ⟨by decide, (c1_done_event_exactly_once env0 cfg0 [itemA]).1 (by decide),
   by decide, (c1_done_event_exactly_once env0 cfg0 [itemA]).2.2.1 (by decide)⟩

/-- C8 (corrected): with any response the data API can give for the
remote state, the hash lookup returns `none` exactly when the response
status is not 200 - which covers both a missing path and any lookup
failure (rate limit, server error) - and a returned hash is the current
hash of an existing path.  A `none` therefore does not always mean
absence. -/
theorem c8_hash_lookup (remote : String → Option String) (path : String) (r : HttpResp)
    (h : RespConsistent remote path r) :
    (_get_file_sha r = none ↔ r.status ≠ 200)
  ∧ (∀ hsh, _get_file_sha r = some hsh → remote path = some hsh) := by
  obtain ⟨h200, _h404⟩ := h
  unfold _get_file_sha
  by_cases hs : r.status = 200
  · obtain ⟨hsha, hne⟩ := h200 hs
    constructor
    · simp only [hs]
      simp only [beq_self_eq_true, if_true]
      constructor
      · intro hn; exact absurd (hsha ▸ hn).symm (Ne.symm hne)
      · intro hn; exact absurd rfl hn
    · intro hsh hp
      simp only [hs, beq_self_eq_true, if_true] at hp
      exact hsha ▸ hp
  · have hbeq : (r.status == 200) = false := by simp [hs]
    constructor
    · simp [hbeq, hs]
    · intro hsh hp
      simp [hbeq] at hp

/-- C8 counterexample: the claim as stated - `none` exactly when the
path does not yet exist - fails: a 500 response is consistent with a
remote state where the path exists, yet the lookup returns `none`. -/
theorem c8_counterexample :
    RespConsistent remoteX "f.txt" resp500
  ∧ _get_file_sha resp500 = none
  ∧ remoteX "f.txt" ≠ none := by
  refine ⟨⟨fun h => ?_, fun h => ?_⟩, rfl, by simp [remoteX]⟩ <;> simp [resp500] at h

/-- C8 witness: a 200 response for an existing path satisfies the
consistency hypothesis and the amended conclusion. -/
theorem c8_witness :
    RespConsistent remoteX "f.txt" resp200
  ∧ ((_get_file_sha resp200 = none ↔ resp200.status ≠ 200)
      ∧ (∀ hsh, _get_file_sha resp200 = some hsh → remoteX "f.txt" = some hsh)) := by
  have hcons : RespConsistent remoteX "f.txt" resp200 :=
    ⟨fun _ => ⟨rfl, by simp [remoteX]⟩, fun h => by simp [resp200] at h⟩
  exact ⟨hcons, c8_hash_lookup remoteX "f.txt" resp200 hcons⟩

/-- C9 (confirmed): the completion classification of `_done` satisfies
success iff `failed = 0` and `committed > 0`; any `failed > 0`
classifies as failure/partial; a non-dry run with `committed = 0`
classifies as failure; and the webhook notifier recomputes the same
success flag, with partial meaning failures alongside commits. -/
theorem c9_classification (done failed : Nat) (dry : Bool) :
    (is_success done failed = true ↔ (failed = 0 ∧ 0 < done))
  ∧ (0 < failed → is_failure done failed dry = true)
  ∧ (dry = false → done = 0 → is_failure done failed dry = true)
  ∧ discord_success done failed = is_success done failed
  ∧ ( discord_partial done failed = true ↔ (0 < failed ∧ 0 < done)) := by
  unfold is_success is_failure discord_success discord_partial
  refine ⟨?_, ?_, ?_, rfl, ?_⟩
  · simp
  · intro h
    simp only [Bool.or_eq_true, decide_eq_true_eq]
    exact Or.inl h
  · intro hd hz
    subst hd hz
    simp
  · simp

/-- C9 witness: the classification evaluated at committed 2, failed 0,
non-dry, is a success and not a partial. -/
theorem c9_witness :
    ((is_success 2 0 = true ↔ ((0 : Nat) = 0 ∧ (0 : Nat) < 2))
      ∧ ((0 : Nat) < 0 → is_failure 2 0 false = true)
      ∧ (false = false → (2 : Nat) = 0 → is_failure 2 0 false = true)
      ∧ discord_success 2 0 = is_success 2 0
      ∧ ( discord_partial 2 0 = true ↔ ((0 : Nat) < 0 ∧ (0 : Nat) < 2))) :=
  c9_classification 2 0 false

/-- Helper for C10: replacing the token value leaves the stripped
mapping unchanged, entry by entry. -/
theorem filter_map_token {α : Type} (v1 v2 : α) : ∀ cfg : List (String × α),
    ((cfg.map (fun kv => if kv.fst == "token" then ("token", v1) else kv)).filter
        (fun kv => kv.fst != "token"))
      = ((cfg.map (fun kv => if kv.fst == "token" then ("token", v2) else kv)).filter
          (fun kv => kv.fst != "token")) := by
  intro cfg
  induction cfg with
  | nil => rfl
  | cons e rest ih =>
    by_cases he : e.fst = "token" <;> simp [he] <;> simpa using ih

/-- C10 (confirmed): the persisted configuration contains no `token`
key, and two configurations that differ only in the token value
persist identically, so the credential never reaches disk. -/
theorem c10_token_never_persisted {α : Type} (cfg : List (String × α)) (v1 v2 : α) :
    save_config (dictSet cfg "token" v1) = save_config (dictSet cfg "token" v2)
  ∧ (save_config cfg).all (fun kv => kv.fst != "token") = true := by
  constructor
  · unfold save_config dictSet
    by_cases h : cfg.any (fun kv => kv.fst == "token")
    · simp only [h, if_true]
      exact filter_map_token v1 v2 cfg
    · simp [h, List.filter_append]
  · unfold save_config
    simp only [List.all_eq_true]
    intro kv hkv
    exact (List.mem_filter.mp hkv).2

/-- The attempt loop executes at most `fuel` attempt iterations. -/
theorem attemptLoop_recs_le (env : Env) (d : ℚ) (rp : String) :
    ∀ fuel t b, (attemptLoop env d rp fuel t b).recs.length ≤ fuel := by
  intro fuel
  induction fuel with
  | zero => intro t b; simp [attemptLoop]
  | succ n ih =>
    intro t b
    by_cases hc : env.cancel t
    · simp [attemptLoop, hc]
    · cases hcl : classifyAttempt env (t + 1 + env.waitFuel (t + 1)) <;>
        simp [attemptLoop, hc, hcl] <;>
        first
          | omega
          | exact ih _ _

/-- An `okRead` classification comes exactly from a readable file whose
stat succeeded with a size not above the cap. -/
theorem readCase_okRead (cfg : Cfg) (it : Item) (rp : String) (size : Nat)
    (h : readCase cfg it = .okRead rp size) :
    it.size = some size ∧ ¬ 99 * 1024 * 1024 < size ∧ it.readOk = true
      ∧ rp = repoPath cfg it.rel := by
  unfold readCase at h
  cases hsz : it.size with
  | none => rw [hsz] at h; simp at h
  | some s =>
    rw [hsz] at h
    dsimp only at h
    by_cases hcap : 99 * 1024 * 1024 < s
    · rw [if_pos hcap] at h; simp at h
    · rw [if_neg hcap] at h
      by_cases hrd : (!it.readOk) = true
      · rw [if_pos hrd] at h; simp at h
      · rw [if_neg hrd] at h
        simp only [ReadCase.okRead.injEq] at h
        obtain ⟨hrp, hs⟩ := h
        subst hs
        refine ⟨rfl, hcap, ?_, hrp.symm⟩
        simpa using hrd

/-- C2 (corrected): in both modes, any file whose size is STRICTLY
greater than `99*1024*1024` bytes is never attempted: in per-file mode
its outcome is `Skipped(too-large)` and its processing performs no
remote call of any kind; in atomic mode it never enters `file_data`,
the only list the blob loop uploads from, and the read phase itself
performs no remote call. -/
theorem c2_size_cap (env : Env) (cfg : Cfg) :
    (∀ it t size, it.size = some size → 99 * 1024 * 1024 < size →
       (processItem env cfg it t).outcome? = some .skippedTooLarge
       ∧ (processItem env cfg it t).acts.all (fun a => !a.isRemote) = true)
  ∧ (∀ items t e, e ∈ (readPhase env cfg items t).fileData →
       ∃ size, e.2.2.size = some size ∧ ¬ 99 * 1024 * 1024 < size)
  ∧ (∀ items t, (readPhase env cfg items t).acts.all (fun a => !a.isRemote) = true) := by
  refine ⟨?_, ?_, ?_⟩
  · intro it t size hsz hcap
    unfold processItem
    rw [hsz]
    dsimp only
    rw [if_pos hcap]
    exact ⟨rfl, by simp [Act.isRemote]⟩
  · intro items
    induction items with
    | nil => intro t e he; simp [readPhase] at he
    | cons it rest ih =>
      intro t e he
      by_cases hc : env.cancel (t + env.waitFuel t)
      · simp [readPhase, hc] at he
      · unfold readPhase at he
        simp only [hc] at he
        cases hrc : readCase cfg it with
        | unreadable => rw [hrc] at he; dsimp only at he; exact ih _ e he
        | tooLarge => rw [hrc] at he; dsimp only at he; exact ih _ e he
        | readFail => rw [hrc] at he; dsimp only at he; exact ih _ e he
        | okRead rp size =>
          rw [hrc] at he
          dsimp only at he
          rcases List.mem_cons.mp he with rfl | he
          · obtain ⟨hsz, hcap, _, _⟩ := readCase_okRead cfg it rp size hrc
            exact ⟨size, hsz, hcap⟩
          · exact ih _ e he
  · intro items
    induction items with
    | nil => intro t; simp [readPhase]
    | cons it rest ih =>
      intro t
      by_cases hc : env.cancel (t + env.waitFuel t)
      · simp [readPhase, hc, Act.isRemote]
      · unfold readPhase
        simp only [hc]
        cases hrc : readCase cfg it <;>
          simp [Act.isRemote, List.all_eq_true] <;>
          (intro a ha
           have := ih (t + env.waitFuel t + 1)
           simp only [List.all_eq_true] at this
           simpa using this a ha)

/-- C2 counterexample: the claim as stated says AT OR ABOVE 99 MiB is
never attempted, but the source tests `size > 99*1024*1024`, so a file
of exactly `99*1024*1024` bytes is uploaded: its outcome is Committed
and both remote calls are made for it. -/
theorem c2_counterexample :
    itemEdge.size = some (99 * 1024 * 1024)
  ∧ (processItem env0 cfg0 itemEdge 0).outcome?
      = some (.committed (99 * 1024 * 1024))
  ∧ Act.shaFetch "edge.bin" ∈ (processItem env0 cfg0 itemEdge 0).acts
  ∧ Act.putFile "edge.bin" ∈ (processItem env0 cfg0 itemEdge 0).acts := by
  refine ⟨rfl, ?_, ?_, ?_⟩ <;> decide

/-- C2 witness: a file one byte over the cap is skipped with no remote
call in per-file mode, and the read phase makes no remote call. -/
theorem c2_witness :
    itemBig.size = some (99 * 1024 * 1024 + 1)
  ∧ (99 * 1024 * 1024 : Nat) < 99 * 1024 * 1024 + 1
  ∧ (processItem env0 cfg0 itemBig 0).outcome? = some .skippedTooLarge
  ∧ (processItem env0 cfg0 itemBig 0).acts.all (fun a => !a.isRemote) = true
  ∧ (readPhase env0 cfg0 [itemBig, itemA] 0).acts.all (fun a => !a.isRemote) = true :=
  ⟨rfl, by omega,
   ((c2_size_cap env0 cfg0).1 itemBig 0 (99 * 1024 * 1024 + 1) rfl (by omega)).1,
   ((c2_size_cap env0 cfg0).1 itemBig 0 (99 * 1024 * 1024 + 1) rfl (by omega)).2,
   (c2_size_cap env0 cfg0).2.2 [itemBig, itemA] 0⟩

/-- C3 (confirmed): the per-item transfer loop is bounded at 7
attempts, and exhausting the budget without a terminal classification
records `Failed(gave-up)` unless the run was cancelled, in which case
the item records no outcome. -/
theorem c3_attempt_budget (env : Env) (cfg : Cfg) (it : Item) (t : Nat) (size : Nat)
    (hsz : it.size = some size) (hcap : ¬ 99 * 1024 * 1024 < size)
    (hdry : cfg.dry = false) (hrd : it.readOk = true) :
    ∃ lr, (processItem env cfg it t).loopRes? = some lr
      ∧ lr.recs.length ≤ 7
      ∧ (lr.exit = .exhausted →
          (processItem env cfg it t).outcome? = some .failedGaveUp
          ∨ ((processItem env cfg it t).outcome? = none ∧ env.cancelAt ≠ none)) := by
  have hrecs := attemptLoop_recs_le env cfg.delay (repoPath cfg it.rel) 7 t cfg.delay
  have hdry2 : ¬ cfg.dry = true := by simp [hdry]
  have hrd2 : ¬ (!it.readOk) = true := by simp [hrd]
  refine ⟨attemptLoop env cfg.delay (repoPath cfg it.rel) 7 t cfg.delay, ?_, hrecs, ?_⟩
  · unfold processItem
    rw [hsz]
    dsimp only
    rw [if_neg hcap, if_neg hdry2, if_neg hrd2]
    cases hex : (attemptLoop env cfg.delay (repoPath cfg it.rel) 7 t cfg.delay).exit <;>
      (try dsimp only) <;> (try split) <;> rfl
  · intro hex
    unfold processItem
    rw [hsz]
    dsimp only
    rw [if_neg hcap, if_neg hdry2, if_neg hrd2]
    by_cases hcl : env.cancel (attemptLoop env cfg.delay (repoPath cfg it.rel) 7 t cfg.delay).tick
    · right
      refine ⟨?_, cancelAt_of_cancel env hcl⟩
      simp [hex, hcl]
    · left
      simp [hex, hcl]

/-- C3 witness: under an always-rate-limited environment the loop uses
all 7 attempts and the item is recorded as gave-up. -/
theorem c3_witness :
    itemA.size = some 10
  ∧ ¬ (99 * 1024 * 1024 : Nat) < 10
  ∧ cfg0.dry = false
  ∧ itemA.readOk = true
  ∧ (∃ lr, (processItem envRL cfg0 itemA 0).loopRes? = some lr
      ∧ lr.recs.length ≤ 7
      ∧ (lr.exit = .exhausted →
          (processItem envRL cfg0 itemA 0).outcome? = some .failedGaveUp
          ∨ ((processItem envRL cfg0 itemA 0).outcome? = none
              ∧ envRL.cancelAt ≠ none))) :=
  ⟨rfl, by omega, rfl, rfl,
   c3_attempt_budget envRL cfg0 itemA 0 10 rfl (by omega) rfl rfl⟩

/-- Bounds invariant of the server-error sleep sequence. -/
theorem serverSleeps_bounds (b0 : ℚ) (h0 : 0 ≤ b0) (h1 : b0 ≤ 120) :
    ∀ n, 0 ≤ serverSleeps b0 n ∧ serverSleeps b0 n ≤ 120 := by
  intro n
  induction n with
  | zero => exact ⟨h0, h1⟩
  | succ m ih =>
    simp only [serverSleeps, serverErrorBackoff]
    constructor
    · exact le_min (by linarith [ih.1]) (by norm_num)
    · exact min_le_right _ _

/-- C4 (corrected): provided the initial backoff (the per-call delay)
lies in `[0, 120]`, consecutive server-error or network-error sleeps
are non-decreasing; the stored backoff after each such sleep becomes
`min(backoff*2, 120)` - doubling only up to the ceiling - and never
exceeds 120; and the loop indeed sleeps the stored backoff and updates
it by `serverErrorBackoff` on a server-error attempt. -/
theorem c4_backoff_monotone (b0 : ℚ) (h0 : 0 ≤ b0) (h1 : b0 ≤ 120) :
    (∀ n, serverSleeps b0 n ≤ serverSleeps b0 (n + 1))
  ∧ (∀ n, serverSleeps b0 (n + 1) = min (serverSleeps b0 n * 2) 120
        ∧ serverSleeps b0 (n + 1) ≤ 120)
  ∧ (∀ (e : Env) (d : ℚ) (rp : String) (fuel t : Nat) (b : ℚ),
      e.cancel t = false →
      classifyAttempt e (t + 1 + e.waitFuel (t + 1)) = .serverErr →
      (attemptLoop e d rp (fuel + 1) t b).recs.head?
        = some ⟨.serverErr, b, serverErrorBackoff b, [d, d, b]⟩) := by
  refine ⟨?_, ?_, ?_⟩
  · intro n
    obtain ⟨hl, hu⟩ := serverSleeps_bounds b0 h0 h1 n
    simp only [serverSleeps, serverErrorBackoff]
    exact le_min (by linarith) hu
  · intro n
    exact ⟨by simp [serverSleeps, serverErrorBackoff],
           by simp only [serverSleeps, serverErrorBackoff]; exact min_le_right _ _⟩
  · intro e d rp fuel t b hcan hcl
    simp [attemptLoop, hcan, hcl]

/-- C4 counterexample: the claim as stated fails when the configured
per-call delay exceeds the ceiling: with delay 200 the first
server-error sleep is 200 and the second only 120, so the delays
decrease; the stored backoff 200 exceeds the stated 120 ceiling; and
the backoff does not literally double, because `min(200*2, 120) = 120`. -/
theorem c4_counterexample :
    serverSleeps 200 1 < serverSleeps 200 0
  ∧ 120 < serverSleeps 200 0
  ∧ serverErrorBackoff 200 ≠ 200 * 2 := by
  norm_num [serverSleeps, serverErrorBackoff]

/-- C4 witness: with initial backoff 1 the amended statement holds and
the server-error branch of the loop is reached concretely. -/
theorem c4_witness :
    (0 : ℚ) ≤ 1 ∧ (1 : ℚ) ≤ 120
  ∧ serverSleeps 1 0 ≤ serverSleeps 1 1
  ∧ (serverSleeps 1 1 = min (serverSleeps 1 0 * 2) 120 ∧ serverSleeps 1 1 ≤ 120)
  ∧ (attemptLoop env500 1 "a.txt" (0 + 1) 0 1).recs.head?
      = some ⟨.serverErr, 1, serverErrorBackoff 1, [1, 1, 1]⟩ :=
  ⟨by norm_num, by norm_num,
   (c4_backoff_monotone 1 (by norm_num) (by norm_num)).1 0,
   (c4_backoff_monotone 1 (by norm_num) (by norm_num)).2.1 0,
   (c4_backoff_monotone 1 (by norm_num) (by norm_num)).2.2 env500 1 "a.txt" 0 0 1
     (by decide) (by decide)⟩

/-- C5 (confirmed): a conflict-classified write attempt sleeps only the
fixed per-call delay (all three sleeps of the iteration equal it),
records an unchanged backoff, and the loop continues with exactly the
same backoff value, so a conflict retry never increases the backoff
used by subsequent rate-limit or server-error retries of the item. -/
theorem c5_conflict_keeps_backoff (env : Env) (d : ℚ) (rp : String) (fuel t : Nat) (b : ℚ)
    (hc : env.cancel t = false)
    (hcl : classifyAttempt env (t + 1 + env.waitFuel (t + 1)) = .conflict) :
    (attemptLoop env d rp (fuel + 1) t b).recs.head?
        = some ⟨.conflict, b, b, [d, d, d]⟩
  ∧ (attemptLoop env d rp (fuel + 1) t b).recs.tail
        = (attemptLoop env d rp fuel (t + 1 + env.waitFuel (t + 1) + 2) b).recs
  ∧ (attemptLoop env d rp (fuel + 1) t b).exit
        = (attemptLoop env d rp fuel (t + 1 + env.waitFuel (t + 1) + 2) b).exit
  ∧ (attemptLoop env d rp (fuel + 1) t b).backoff
        = (attemptLoop env d rp fuel (t + 1 + env.waitFuel (t + 1) + 2) b).backoff := by
  refine ⟨?_, ?_, ?_, ?_⟩ <;> simp [attemptLoop, hc, hcl]

/-- C5 witness: a concrete conflict-classified attempt with delay 1 and
backoff 1. -/
theorem c5_witness :
    env422.cancel 0 = false
  ∧ classifyAttempt env422 (0 + 1 + env422.waitFuel (0 + 1)) = .conflict
  ∧ (attemptLoop env422 1 "a.txt" (0 + 1) 0 1).recs.head?
      = some ⟨.conflict, 1, 1, [1, 1, 1]⟩ :=
  ⟨by decide, by decide,
   (c5_conflict_keeps_backoff env422 1 "a.txt" 0 0 1 (by decide) (by decide)).1⟩

/-- Structure of cancel observations inside the attempt loop: a
cancelled exit means the flag was observed at the loop head, the
observed-true check is the last act, and a non-cancelled exit means no
check observed the flag. -/
theorem attemptLoop_check_struct (env : Env) (d : ℚ) (rp : String) :
    ∀ fuel t b,
      ((attemptLoop env d rp fuel t b).exit = .cancelled →
        env.cancel (attemptLoop env d rp fuel t b).tick = true
        ∧ afterFirstTrueCheck (attemptLoop env d rp fuel t b).acts = []
        ∧ (attemptLoop env d rp fuel t b).acts.any isTrueCheck = true)
    ∧ ((attemptLoop env d rp fuel t b).exit ≠ .cancelled →
        (attemptLoop env d rp fuel t b).acts.any isTrueCheck = false) := by
  intro fuel
  induction fuel with
  | zero =>
    intro t b
    constructor
    · intro h; simp [attemptLoop] at h
    · intro _; simp [attemptLoop]
  | succ n ih =>
    intro t b
    by_cases hc : env.cancel t
    · constructor
      · intro _
        simp [attemptLoop, hc, afterFirstTrueCheck, isTrueCheck]
        exact cancel_mono env hc (Nat.le_succ t)
      · intro hne
        exact absurd (by simp [attemptLoop, hc]) hne
    · cases hcl : classifyAttempt env (t + 1 + env.waitFuel (t + 1)) with
      | success =>
        constructor
        · intro h; simp [attemptLoop, hc, hcl] at h
        · intro _
          simp [attemptLoop, hc, hcl, isTrueCheck]
      | fatal e =>
        constructor
        · intro h; simp [attemptLoop, hc, hcl] at h
        · intro _
          simp [attemptLoop, hc, hcl, isTrueCheck]
      | netSha =>
        constructor
        · intro h
          simp [attemptLoop, hc, hcl] at h
          obtain ⟨h1, h2, h3⟩ := (ih _ _).1 h
          simp [attemptLoop, hc, hcl, afterFirstTrueCheck, isTrueCheck]
          exact ⟨h1, h2, List.any_eq_true.mp h3⟩
        · intro hne
          simp [attemptLoop, hc, hcl] at hne
          have h4 := (ih _ _).2 hne
          simp [attemptLoop, hc, hcl, isTrueCheck, h4]
      | netPut =>
        constructor
        · intro h
          simp [attemptLoop, hc, hcl] at h
          obtain ⟨h1, h2, h3⟩ := (ih _ _).1 h
          simp [attemptLoop, hc, hcl, afterFirstTrueCheck, isTrueCheck]
          exact ⟨h1, h2, List.any_eq_true.mp h3⟩
        · intro hne
          simp [attemptLoop, hc, hcl] at hne
          have h4 := (ih _ _).2 hne
          simp [attemptLoop, hc, hcl, isTrueCheck, h4]
      | rateLimited =>
        constructor
        · intro h
          simp [attemptLoop, hc, hcl] at h
          obtain ⟨h1, h2, h3⟩ := (ih _ _).1 h
          simp [attemptLoop, hc, hcl, afterFirstTrueCheck, isTrueCheck]
          exact ⟨h1, h2, List.any_eq_true.mp h3⟩
        · intro hne
          simp [attemptLoop, hc, hcl] at hne
          have h4 := (ih _ _).2 hne
          simp [attemptLoop, hc, hcl, isTrueCheck, h4]
      | conflict =>
        constructor
        · intro h
          simp [attemptLoop, hc, hcl] at h
          obtain ⟨h1, h2, h3⟩ := (ih _ _).1 h
          simp [attemptLoop, hc, hcl, afterFirstTrueCheck, isTrueCheck]
          exact ⟨h1, h2, List.any_eq_true.mp h3⟩
        · intro hne
          simp [attemptLoop, hc, hcl] at hne
          have h4 := (ih _ _).2 hne
          simp [attemptLoop, hc, hcl, isTrueCheck, h4]
      | serverErr =>
        constructor
        · intro h
          simp [attemptLoop, hc, hcl] at h
          obtain ⟨h1, h2, h3⟩ := (ih _ _).1 h
          simp [attemptLoop, hc, hcl, afterFirstTrueCheck, isTrueCheck]
          exact ⟨h1, h2, List.any_eq_true.mp h3⟩
        · intro hne
          simp [attemptLoop, hc, hcl] at hne
          have h4 := (ih _ _).2 hne
          simp [attemptLoop, hc, hcl, isTrueCheck, h4]

/-- Structure of cancel observations across one item: the part of the
trace after an observed-true check holds only checks and channel
messages, and if some check observed the flag then the flag is set at
the final tick of the item. -/
theorem processItem_check_struct (env : Env) (cfg : Cfg) (lp : String) (it : Item) (t : Nat) :
    (afterFirstTrueCheck (processItem env cfg it t).acts).all (allowedAfterCancel lp) = true
  ∧ ((processItem env cfg it t).acts.any isTrueCheck = true →
      env.cancel (processItem env cfg it t).tick = true) := by
  have hs := attemptLoop_check_struct env cfg.delay (repoPath cfg it.rel)
  unfold processItem
  cases it.size with
  | none =>
    constructor
    · simp [afterFirstTrueCheck, isTrueCheck]
    · intro h; simp [isTrueCheck] at h
  | some size =>
    dsimp only
    split
    · constructor
      · simp [afterFirstTrueCheck, isTrueCheck]
      · intro h; simp [isTrueCheck] at h
    split
    · constructor
      · simp [afterFirstTrueCheck, isTrueCheck]
      · intro h; simp [isTrueCheck] at h
    split
    · constructor
      · simp [afterFirstTrueCheck, isTrueCheck]
      · intro h; simp [isTrueCheck] at h
    cases hex : (attemptLoop env cfg.delay (repoPath cfg it.rel) 7 t cfg.delay).exit with
    | success =>
      have hnc := (hs 7 t cfg.delay).2 (by simp [hex])
      dsimp only
      split <;> constructor <;>
        first
          | (rw [afc_eq_nil_of_no_true (by simp [List.any_append, hnc, isTrueCheck])]; rfl)
          | (intro h2; simp [List.any_append, hnc, isTrueCheck] at h2)
    | failedTerm e =>
      have hnc := (hs 7 t cfg.delay).2 (by simp [hex])
      constructor
      · rw [afc_eq_nil_of_no_true (by simp [List.any_append, hnc, isTrueCheck])]; rfl
      · intro h2; simp [List.any_append, hnc, isTrueCheck] at h2
    | cancelled =>
      obtain ⟨h1, h2, h3⟩ := (hs 7 t cfg.delay).1 hex
      dsimp only
      rw [if_pos h1]
      constructor
      · dsimp only
        rw [afc_append_pos (by simp [List.any_append, h3]),
            afc_append_neg (by simp [isTrueCheck]), h2]
        simp [allowedAfterCancel]
      · intro _
        exact cancel_mono env h1 (Nat.le_succ _)
    | exhausted =>
      have hnc := (hs 7 t cfg.delay).2 (by simp [hex])
      dsimp only
      by_cases hcl : env.cancel (attemptLoop env cfg.delay (repoPath cfg it.rel) 7 t cfg.delay).tick = true
      · rw [if_pos hcl]
        constructor
        · dsimp only
          rw [afc_append_neg (by simp [List.any_append, hnc, isTrueCheck])]
          simp [afterFirstTrueCheck, isTrueCheck, allowedAfterCancel]
        · intro _
          exact cancel_mono env hcl (Nat.le_succ _)
      · rw [if_neg hcl]
        constructor
        · rw [afc_eq_nil_of_no_true (by simp [List.any_append, hnc, isTrueCheck])]; rfl
        · intro h2; simp [List.any_append, hnc, isTrueCheck] at h2

/-- Once the latch is set, the outer loop only checks, logs and stops. -/
theorem runLoop_cancelled_acts (env : Env) (cfg : Cfg) (lp : String)
    (items : List Item) (t : Nat) (h : env.cancel t = true) :
    ((runLoop env cfg items t).acts).all (allowedAfterCancel lp) = true := by
  cases items with
  | nil => simp [runLoop]
  | cons it rest =>
    have h2 : env.cancel (t + env.waitFuel t) = true :=
      cancel_mono env h (Nat.le_add_right _ _)
    simp [runLoop, h2, allowedAfterCancel]

/-- Across the outer loop, everything after an observed-true check is a
check or a channel message. -/
theorem runLoop_check_struct (env : Env) (cfg : Cfg) (lp : String) :
    ∀ items t,
      (afterFirstTrueCheck (runLoop env cfg items t).acts).all (allowedAfterCancel lp) = true := by
  intro items
  induction items with
  | nil => intro t; simp [runLoop, afterFirstTrueCheck]
  | cons it rest ih =>
    intro t
    by_cases hc : env.cancel (t + env.waitFuel t)
    · simp [runLoop, hc, afterFirstTrueCheck, isTrueCheck, allowedAfterCancel]
    · have hp := processItem_check_struct env cfg lp it (t + env.waitFuel t + 1)
      unfold runLoop
      rw [if_neg hc]
      (try dsimp only)
      rw [show afterFirstTrueCheck
            (Act.headCheck false :: (processItem env cfg it (t + env.waitFuel t + 1)).acts
              ++ (runLoop env cfg rest (processItem env cfg it (t + env.waitFuel t + 1)).tick).acts)
          = afterFirstTrueCheck
            ((processItem env cfg it (t + env.waitFuel t + 1)).acts
              ++ (runLoop env cfg rest (processItem env cfg it (t + env.waitFuel t + 1)).tick).acts)
          from by simp [afterFirstTrueCheck, isTrueCheck]]
      by_cases hany : (processItem env cfg it (t + env.waitFuel t + 1)).acts.any isTrueCheck
      · rw [afc_append_pos hany]
        rw [List.all_append, Bool.and_eq_true]
        exact ⟨hp.1, runLoop_cancelled_acts env cfg lp rest _ (hp.2 hany)⟩
      · rw [afc_append_neg (Bool.eq_false_iff.mpr hany)]
        exact ih _

/-- If the outer head check of the item at position `k` observed the
flag set, at most `k` items produced an outcome entry. -/
theorem runLoop_headTick_bound (env : Env) (cfg : Cfg) :
    ∀ items t k tk, (runLoop env cfg items t).headTicks[k]? = some tk →
      env.cancel tk = true → (runLoop env cfg items t).outcomes.length ≤ k := by
  intro items
  induction items with
  | nil => intro t k tk h _; simp [runLoop] at h
  | cons it rest ih =>
    intro t k tk h hcan
    by_cases hc : env.cancel (t + env.waitFuel t)
    · simp [runLoop, hc]
    · cases k with
      | zero =>
        unfold runLoop at h
        simp [hc] at h
        subst h
        exact absurd hcan hc
      | succ m =>
        unfold runLoop at h ⊢
        simp [hc] at h ⊢
        have := ih _ m tk h hcan
        omega

/-- At most one of the three counting predicates holds per entry. -/
theorem counts_le_length : ∀ outs : List (Option Outcome),
    outs.countP isDoneOutcome + outs.countP isFailedOutcome
      + outs.countP isSkippedOutcome ≤ outs.length := by
  intro outs
  induction outs with
  | nil => simp
  | cons o rest ih =>
    simp only [List.countP_cons, List.length_cons]
    rcases o with _ | oc
    · simp [isDoneOutcome, isFailedOutcome, isSkippedOutcome]; omega
    · cases oc <;>
        simp [isDoneOutcome, isFailedOutcome, isSkippedOutcome] <;> omega

/-- A cancelled attempt loop leaves the in-flight item without any
recorded outcome. -/
theorem processItem_cancelled_no_outcome (env : Env) (cfg : Cfg) (it : Item) (t : Nat)
    (lr : LoopRes) (h : (processItem env cfg it t).loopRes? = some lr)
    (hex : lr.exit = .cancelled) :
    (processItem env cfg it t).outcome? = none := by
  have hs := attemptLoop_check_struct env cfg.delay (repoPath cfg it.rel)
  unfold processItem at h ⊢
  dsimp only at h ⊢
  cases hsz : it.size with
  | none => rw [hsz] at h; simp at h
  | some size =>
    rw [hsz] at h
    dsimp only at h ⊢
    by_cases hcap : 99 * 1024 * 1024 < size
    · rw [if_pos hcap] at h; simp at h
    rw [if_neg hcap] at h ⊢
    by_cases hdry : cfg.dry = true
    · rw [if_pos hdry] at h; simp at h
    rw [if_neg hdry] at h ⊢
    by_cases hrd : (!it.readOk) = true
    · rw [if_pos hrd] at h; simp at h
    rw [if_neg hrd] at h ⊢
    cases hex2 : (attemptLoop env cfg.delay (repoPath cfg it.rel) 7 t cfg.delay).exit with
    | success =>
      rw [hex2] at h
      dsimp only at h
      split at h <;> (injection h with h; subst h; rw [hex2] at hex; simp at hex)
    | failedTerm e =>
      rw [hex2] at h
      dsimp only at h
      injection h with h; subst h; rw [hex2] at hex; simp at hex
    | cancelled =>
      obtain ⟨h1, _, _⟩ := (hs 7 t cfg.delay).1 hex2
      dsimp only
      rw [if_pos h1]
    | exhausted =>
      rw [hex2] at h
      dsimp only at h
      split at h <;> (injection h with h; subst h; rw [hex2] at hex; simp at hex)

/-- The session-log push only touches the log path and contains no
cancel check. -/
theorem pushLog_allowed (env : Env) (cfg : Cfg) (t : Nat) :
    ((pushLog env cfg t).1.all (allowedAfterCancel (_log_path cfg)) = true)
      ∧ ((pushLog env cfg t).1.any isTrueCheck = false) := by
  unfold pushLog
  cases env.contentGet t <;> simp [allowedAfterCancel, isTrueCheck]

/-- Assembling a trace from a check-free prefix, a body whose cancel
suffix is allowed, and a check-free allowed tail keeps the cancel
suffix allowed. -/
theorem afc_wrap_allowed (lp : String) (pre body tail : List Act)
    (hpre : pre.any isTrueCheck = false)
    (hbody : (afterFirstTrueCheck body).all (allowedAfterCancel lp) = true)
    (htailAll : tail.all (allowedAfterCancel lp) = true)
    (htailAny : tail.any isTrueCheck = false) :
    (afterFirstTrueCheck (pre ++ (body ++ tail))).all (allowedAfterCancel lp) = true := by
  rw [afc_append_neg hpre]
  by_cases hb : body.any isTrueCheck
  · rw [afc_append_pos hb, List.all_append, Bool.and_eq_true]
    exact ⟨hbody, htailAll⟩
  · rw [afc_append_neg (Bool.eq_false_iff.mpr hb), afc_eq_nil_of_no_true htailAny]
    rfl

/-- C6.  In incremental mode:
(1) everything the worker does after a check that observed the cancel
flag is a check, a channel message, a sleep, the final done event, or
the best-effort session-log read/write on the log path — in particular
the session-log `PUT` is a remote write that can still be initiated
after cancellation, so the trace is NOT remote-silent after the flag
is observed;
(2) if the outer head check before item `k` (0-based) observed the
flag, at most `k` items carry an outcome, and committed+failed+skipped
is at most `k`;
(3) an item whose attempt loop ended by cancellation records no
outcome at all (it is not marked failed). -/
theorem c6_cancellation (env : Env) (cfg : Cfg) (items : List Item) :
    ((afterFirstTrueCheck (worker_per_file env cfg items).acts).all
        (allowedAfterCancel (_log_path cfg)) = true)
    ∧ (∀ k tk, (worker_per_file env cfg items).headTicks[k]? = some tk →
        env.cancel tk = true →
        (worker_per_file env cfg items).outcomes.length ≤ k
          ∧ (worker_per_file env cfg items).committed
              + (worker_per_file env cfg items).failed
              + (worker_per_file env cfg items).skipped ≤ k)
    ∧ (∀ it t lr, (processItem env cfg it t).loopRes? = some lr →
        lr.exit = .cancelled → (processItem env cfg it t).outcome? = none) := by
  refine ⟨?_, ?_, fun it t lr h hex => processItem_cancelled_no_outcome env cfg it t lr h hex⟩
  · unfold worker_per_file
    by_cases h1 : items.isEmpty
    · rw [if_pos h1]
      simp [afterFirstTrueCheck, isTrueCheck]
    rw [if_neg h1]
    by_cases h2 : items.any (fun it => it.sizeQ.isNone)
    · rw [if_pos h2]
      simp [afterFirstTrueCheck]
    rw [if_neg h2]
    dsimp only
    rw [List.append_assoc, List.append_assoc]
    apply afc_wrap_allowed
    · simp [isTrueCheck]
    · exact runLoop_check_struct env cfg (_log_path cfg) items 0
    · rw [List.all_append, Bool.and_eq_true]
      constructor
      · by_cases hw : (cfg.writeLog && !cfg.dry
            && (runLoop env cfg items 0).outcomes.any (fun o => o.isSome)) = true
        · rw [if_pos hw]; exact (pushLog_allowed env cfg _).1
        · rw [if_neg hw]; rfl
      · simp [allowedAfterCancel]
    · rw [List.any_append, Bool.or_eq_false_iff]
      constructor
      · by_cases hw : (cfg.writeLog && !cfg.dry
            && (runLoop env cfg items 0).outcomes.any (fun o => o.isSome)) = true
        · rw [if_pos hw]; exact (pushLog_allowed env cfg _).2
        · rw [if_neg hw]; rfl
      · simp [isTrueCheck]
  · unfold worker_per_file
    by_cases h1 : items.isEmpty
    · rw [if_pos h1]
      intro k tk hk
      simp at hk
    rw [if_neg h1]
    by_cases h2 : items.any (fun it => it.sizeQ.isNone)
    · rw [if_pos h2]
      intro k tk hk
      simp at hk
    rw [if_neg h2]
    dsimp only
    intro k tk hk hc
    have hb := runLoop_headTick_bound env cfg items 0 k tk hk hc
    have hcnt := counts_le_length (runLoop env cfg items 0).outcomes
    exact ⟨hb, by omega⟩

/-- C6 counterexample: with the flag set from tick 2 on, the outer head
check before the second item observes it at tick 4, yet the session-log
`PUT` — a remote write — is still initiated after that observation. -/
theorem c6_counterexample :
    envCancel2.cancel 4 = true
    ∧ (worker_per_file envCancel2 cfg0 [itemA, itemB]).headTicks[1]? = some 4
    ∧ Act.putFile (_log_path cfg0)
        ∈ afterFirstTrueCheck (worker_per_file envCancel2 cfg0 [itemA, itemB]).acts
    ∧ (Act.putFile (_log_path cfg0)).isRemote = true := by
  refine ⟨by decide, by decide, by decide, by decide⟩

/-- C6 witness: the cancellation bound instantiated on the two-item run
whose head check before item index 1 observes the flag at tick 4, and
the no-outcome law on an item whose loop starts after the flag is set. -/
theorem c6_witness :
    ((worker_per_file envCancel2 cfg0 [itemA, itemB]).outcomes.length ≤ 1
      ∧ (worker_per_file envCancel2 cfg0 [itemA, itemB]).committed
          + (worker_per_file envCancel2 cfg0 [itemA, itemB]).failed
          + (worker_per_file envCancel2 cfg0 [itemA, itemB]).skipped ≤ 1)
    ∧ (processItem envCancel2 cfg0 itemA 3).outcome? = none := by
  have h := c6_cancellation envCancel2 cfg0 [itemA, itemB]
  refine ⟨h.2.1 1 4 (by decide) (by decide), ?_⟩
  exact h.2.2 itemA 3 _ rfl (by decide)


/-- The path order is total: for any two char lists one is `≤` the
other. -/
theorem charListLe_total : ∀ a b, (charListLe a b || charListLe b a) = true := by
  intro a
  induction a with
  | nil => intro b; simp [charListLe]
  | cons x xs ih =>
    intro b
    cases b with
    | nil => simp [charListLe]
    | cons y ys =>
      by_cases hxy : x = y
      · subst hxy
        simpa [charListLe] using ih ys
      · have hyx : ¬ y = x := fun h => hxy h.symm
        simp only [charListLe, if_neg hxy, if_neg hyx, Bool.or_eq_true,
          decide_eq_true_eq]
        exact lt_or_gt_of_ne hxy

/-- The path order is transitive. -/
theorem charListLe_trans : ∀ a b c, charListLe a b = true → charListLe b c = true →
    charListLe a c = true := by
  intro a
  induction a with
  | nil => intro b c _ _; simp [charListLe]
  | cons x xs ih =>
    intro b c hab hbc
    cases b with
    | nil => simp [charListLe] at hab
    | cons y ys =>
      cases c with
      | nil => simp [charListLe] at hbc
      | cons z zs =>
        simp only [charListLe] at hab hbc ⊢
        by_cases hxy : x = y
        · subst hxy
          by_cases hxz : x = z
          · subst hxz
            simp only [if_pos rfl] at hab hbc ⊢
            exact ih _ _ hab hbc
          · simp only [if_pos rfl] at hab
            simp only [if_neg hxz] at hbc ⊢
            exact hbc
        · by_cases hyz : y = z
          · subst hyz
            simp only [if_neg hxy] at hab ⊢
            exact hab
          · simp only [if_neg hxy, decide_eq_true_eq] at hab
            simp only [if_neg hyz, decide_eq_true_eq] at hbc
            have hxz : x < z := lt_trans hab hbc
            simp only [if_neg (ne_of_lt hxz), decide_eq_true_eq]
            exact hxz

/-- C7.  On any walked tree without duplicate entries, the collected
list contains exactly the walked files that `_skip` lets through, each
exactly once, in nondecreasing path order.  `_skip` matches the
exclusion patterns against the bare name and the FULL WALKED path
`str(p)` — not the root-relative path the specification names. -/
theorem c7_collect (m : String → String → Bool) (tree : List FileEntry)
    (patterns : List String) (hnd : tree.Nodup) :
    (∀ p, p ∈ collect_files m tree patterns ↔
        p ∈ tree ∧ _skip m p patterns = false)
    ∧ (collect_files m tree patterns).Nodup
    ∧ (collect_files m tree patterns).Pairwise
        (fun a b => strLe a.fullPath b.fullPath = true) := by
  have htrans : ∀ a b c : FileEntry, strLe a.fullPath b.fullPath = true →
      strLe b.fullPath c.fullPath = true → strLe a.fullPath c.fullPath = true :=
    fun a b c => charListLe_trans _ _ _
  have htotal : ∀ a b : FileEntry,
      (strLe a.fullPath b.fullPath || strLe b.fullPath a.fullPath) = true :=
    fun a b => charListLe_total _ _
  refine ⟨?_, ?_, ?_⟩
  · intro p
    unfold collect_files
    rw [List.mem_mergeSort, List.mem_filter]
    simp [Bool.not_eq_true']
  · unfold collect_files
    exact ((List.mergeSort_perm _ _).symm).nodup (hnd.filter _)
  · unfold collect_files
    exact List.sorted_mergeSort htrans htotal _

/-- C7 counterexample: the pattern `d/*` names the root-relative path
of the nested file, yet the file is still collected, because the code
matches patterns against the full walked path `r/d/a.txt` (and the bare
name), not against the relative path `d/a.txt` the specification
describes. -/
theorem c7_counterexample :
    feNested ∈ collect_files fnmatch [feNested] ["d/*"]
    ∧ skipSpec fnmatch feNested ["d/*"] = true
    ∧ _skip fnmatch feNested ["d/*"] = false := by
  refine ⟨?_, by decide, by decide⟩
  unfold collect_files
  rw [List.mem_mergeSort, List.mem_filter]
  exact ⟨by decide, by decide⟩

/-- C7 witness: the collection law instantiated on a duplicate-free
two-file walk with no exclusion patterns. -/
theorem c7_witness :
    ([feX, feNested] : List FileEntry).Nodup
    ∧ (feNested ∈ collect_files fnmatch [feX, feNested] [] ↔
        feNested ∈ [feX, feNested] ∧ _skip fnmatch feNested [] = false) := by
  have h := c7_collect fnmatch [feX, feNested] [] (by decide)
  exact ⟨by decide, h.1 feNested⟩


end Uploader
